import Mathlib

/-!
Verification of the bdk_wallet state-reconciliation core.

This file gives a shallow embedding of the wallet's data model and operations:
the `ChangeSet` family and its `Merge` implementations, `KeyRing` construction
and loading, `Wallet::apply_update` staging, the `wallet_events` diff engine,
locked-outpoint tracking, eviction handling, and the canonicalization view.

Source-level conventions of the embedding:
* `BTreeMap` is modelled as `Finmap` (overwrite-on-insert finite map); the
  `extend` used by the merge implementations, where entries of the second
  operand overwrite those of the first, becomes `other ∪ self` (left-biased
  union with the second operand on the left).
* Timestamp maps whose merge combines values (max-wins or min-wins) are
  modelled as functional maps `α → Option β` merged pointwise.
* Hashes, txids, script pubkeys and descriptor bodies are abstracted to `Nat`
  identifiers; only the structure the claims depend on is kept.
* Types and functions of the `bdk_chain` dependency (local chain, tx graph,
  canonicalization) are not part of this repository's sources; where a claim
  depends on them they are modelled from the spec, and carry a doc comment
  saying so.
-/

set_option linter.unusedVariables false

namespace Bdk

/-- Transaction identifier, abstracted. -/
abbrev Txid := Nat

/-- A reference to a specific output of a specific transaction. -/
structure OutPoint where
  txid : Txid
  vout : Nat
deriving DecidableEq, Repr

/-- The bitcoin network tag. -/
inductive Network where
  | bitcoin
  | testnet
  | signet
  | regtest
deriving DecidableEq, Repr

/-- A block identified by height and (abstracted) hash. -/
structure BlockId where
  height : Nat
  hash : Nat
deriving DecidableEq, Repr

/-- Anchor type `ConfirmationBlockTime`: proof a transaction is in a block,
with the block's timestamp. -/
structure ConfirmationBlockTime where
  block_id : BlockId
  confirmation_time : Nat
deriving DecidableEq, Repr

/-- A transaction, kept abstract except for its id and its ordered inputs
(the outpoints it spends). -/
structure Transaction where
  compute_txid : Txid
  inputs : List OutPoint
deriving DecidableEq, Repr

/-- Computed chain position of a transaction. -/
inductive ChainPosition where
  | confirmed (anchor : ConfirmationBlockTime) (transitively : Option Txid)
  | unconfirmed (first_seen : Option Nat) (last_seen : Option Nat)
deriving DecidableEq, Repr

/-- An output descriptor, abstracted to its `descriptor_id` plus the outcome of
the wallet-descriptor sanity checks.

Modelled from the spec: descriptor parsing and miniscript semantics are out of
scope ("descriptor parsing/miniscript semantics" are external); a descriptor is
identified by its id, and `valid` records whether it passes
`check_wallet_descriptor` (not multipath, no hardened steps on public
descriptors, sane miniscript). -/
structure Descriptor where
  descriptor_id : Nat
  valid : Bool
deriving DecidableEq, Repr

/-- Modelled from the spec: `check_wallet_descriptor` (defined outside `src/`)
accepts exactly the descriptors whose validity flag is set. -/
def check_wallet_descriptor (d : Descriptor) : Bool :=
  d.valid

/-! ### Map representations -/

/-- A finite map with unique keys: the model of `BTreeMap`. -/
abbrev FMap (α β : Type) : Type := Finmap (fun _ : α => β)

/-- Emptiness test of a finite map, mirroring `BTreeMap::is_empty`. -/
def FMap.is_emptyB {α β : Type} (m : FMap α β) : Bool :=
  Multiset.card m.entries = 0

/-- A functional map used for the timestamp tables whose merge combines
values pointwise. -/
abbrev OMap (α β : Type) : Type := α → Option β

/-- The everywhere-undefined functional map. -/
def OMap.empty {α β : Type} : OMap α β := fun _ => none

/-- Point update of a functional map. -/
def OMap.update {α β : Type} [DecidableEq α] (m : OMap α β) (a : α) (b : β) : OMap α β :=
  fun x => if x = a then some b else m x

/-- Pointwise union of functional maps, combining values present on both
sides with `f`. -/
def OMap.unionWith {α β : Type} (f : β → β → β) (m₁ m₂ : OMap α β) : OMap α β := fun a =>
  match m₁ a, m₂ a with
  | some x, some y => some (f x y)
  | some x, none => some x
  | none, v => v

/-- Option merge where a `some` of the second operand overwrites the first:
mirrors `if other.x.is_some() { self.x = other.x }` in the source merges. -/
def oWrite {α : Type} (a b : Option α) : Option α :=
  match b with
  | some x => some x
  | none => a

/-- Option merge where the first operand is kept once set: mirrors
`if other.x.is_some() && self.x.is_none() { self.x = other.x }`. -/
def oKeep {α : Type} (a b : Option α) : Option α :=
  match a with
  | some x => some x
  | none => b

/-! ### keyring::ChangeSet (src/keyring/changeset.rs) -/

namespace keyring

/-- Changes to the `KeyRing`. -/
structure ChangeSet (K : Type) where
  network : Option Network
  descriptors : FMap K Descriptor
  default_keychain : Option K
deriving DecidableEq

/-- The `Default` changeset: all fields empty. -/
def ChangeSet.empty (K : Type) : ChangeSet K :=
  { network := none, descriptors := ∅, default_keychain := none }

/-- `Merge for keyring::ChangeSet`: the network is kept once set; descriptors
of the other operand overwrite; a new default keychain takes precedence. -/
def ChangeSet.merge {K : Type} [DecidableEq K] (self other : ChangeSet K) : ChangeSet K :=
  { network := oKeep self.network other.network
    descriptors := other.descriptors ∪ self.descriptors
    default_keychain := oWrite self.default_keychain other.default_keychain }

/-- `is_empty` of the keyring changeset. -/
def ChangeSet.is_empty {K : Type} (cs : ChangeSet K) : Bool :=
  cs.network.isNone && cs.descriptors.is_emptyB && cs.default_keychain.isNone

end keyring

/-! ### locked_outpoints::ChangeSet (src/wallet/locked_outpoints.rs) -/

namespace locked_outpoints

/-- Changes to locked outpoints; the boolean is the lock status
(`true` means locked). -/
structure ChangeSet where
  outpoints : FMap OutPoint Bool

/-- The `Default` changeset. -/
def ChangeSet.empty : ChangeSet :=
  { outpoints := ∅ }

/-- `Merge for locked_outpoints::ChangeSet`: extend self with other, entries
of `other` overwriting those of `self` at the same outpoint. -/
def ChangeSet.merge (self other : ChangeSet) : ChangeSet :=
  { outpoints := other.outpoints ∪ self.outpoints }

/-- `is_empty` of the locked-outpoints changeset. -/
def ChangeSet.is_empty (cs : ChangeSet) : Bool :=
  cs.outpoints.is_emptyB

end locked_outpoints

/-! ### bdk_chain changesets, modelled from the spec -/

namespace local_chain

/-- Modelled from the spec: `local_chain::ChangeSet` of the `bdk_chain`
dependency is a height-indexed map of block-hash changes (`None` recording a
removed checkpoint); merging extends the map, entries of the second operand
overwriting the first. -/
structure ChangeSet where
  blocks : FMap Nat (Option Nat)

/-- The empty local-chain changeset. -/
def ChangeSet.empty : ChangeSet :=
  { blocks := ∅ }

/-- Merge of local-chain changesets (map extend). -/
def ChangeSet.merge (self other : ChangeSet) : ChangeSet :=
  { blocks := other.blocks ∪ self.blocks }

end local_chain

namespace tx_graph

/-- Modelled from the spec: `tx_graph::ChangeSet` of the `bdk_chain`
dependency holds the sets of transactions, floating txouts and anchors plus
the per-txid mempool timestamps, where last-seen and last-evicted merge with
max-wins semantics (a strictly later timestamp overwrites an earlier one) and
first-seen keeps the earliest. Transactions and txout values are abstracted
to identifiers. -/
structure ChangeSet where
  txs : Finset Txid
  txouts : FMap OutPoint Nat
  anchors : Finset (ConfirmationBlockTime × Txid)
  last_seen : OMap Txid Nat
  first_seen : OMap Txid Nat
  last_evicted : OMap Txid Nat

/-- The empty tx-graph changeset. -/
def ChangeSet.empty : ChangeSet :=
  { txs := ∅, txouts := ∅, anchors := ∅
    last_seen := OMap.empty, first_seen := OMap.empty, last_evicted := OMap.empty }

/-- Merge of tx-graph changesets: sets union, txouts extend, timestamps
combine pointwise (max for last-seen and last-evicted, min for first-seen). -/
def ChangeSet.merge (self other : ChangeSet) : ChangeSet :=
  { txs := self.txs ∪ other.txs
    txouts := other.txouts ∪ self.txouts
    anchors := self.anchors ∪ other.anchors
    last_seen := OMap.unionWith Nat.max self.last_seen other.last_seen
    first_seen := OMap.unionWith Nat.min self.first_seen other.first_seen
    last_evicted := OMap.unionWith Nat.max self.last_evicted other.last_evicted }

end tx_graph

namespace keychain_txout

/-- Modelled from the spec: `keychain_txout::ChangeSet` of the `bdk_chain`
dependency records the last revealed derivation index per descriptor id
(merging with max-wins, as revelation is monotonic) and an optional script
pubkey cache keyed by (descriptor id, derivation index), merged by extend. -/
structure ChangeSet where
  last_revealed : OMap Nat Nat
  spk_cache : FMap (Nat × Nat) Nat

/-- The empty indexer changeset. -/
def ChangeSet.empty : ChangeSet :=
  { last_revealed := OMap.empty, spk_cache := ∅ }

/-- Merge of indexer changesets. -/
def ChangeSet.merge (self other : ChangeSet) : ChangeSet :=
  { last_revealed := OMap.unionWith Nat.max self.last_revealed other.last_revealed
    spk_cache := other.spk_cache ∪ self.spk_cache }

end keychain_txout

/-! ### wallet::ChangeSet (src/wallet/changeset.rs) -/

namespace wallet

/-- The top-level wallet change set of `src/wallet/changeset.rs`: descriptors
and network, plus the sub-changesets of the local chain, the tx graph, the
keychain indexer and the locked outpoints. -/
structure ChangeSet where
  descriptor : Option Descriptor
  change_descriptor : Option Descriptor
  network : Option Network
  local_chain : local_chain.ChangeSet
  tx_graph : tx_graph.ChangeSet
  indexer : keychain_txout.ChangeSet
  locked_outpoints : locked_outpoints.ChangeSet

/-- The `Default` wallet changeset. -/
def ChangeSet.empty : ChangeSet :=
  { descriptor := none, change_descriptor := none, network := none
    local_chain := local_chain.ChangeSet.empty
    tx_graph := tx_graph.ChangeSet.empty
    indexer := keychain_txout.ChangeSet.empty
    locked_outpoints := locked_outpoints.ChangeSet.empty }

/-- `Merge for wallet::ChangeSet`: a `some` descriptor, change descriptor or
network of the other operand overwrites; every sub-changeset merges with its
own `Merge` implementation. -/
def ChangeSet.merge (self other : ChangeSet) : ChangeSet :=
  { descriptor := oWrite self.descriptor other.descriptor
    change_descriptor := oWrite self.change_descriptor other.change_descriptor
    network := oWrite self.network other.network
    local_chain := self.local_chain.merge other.local_chain
    tx_graph := self.tx_graph.merge other.tx_graph
    indexer := self.indexer.merge other.indexer
    locked_outpoints := self.locked_outpoints.merge other.locked_outpoints }

end wallet

/-! ### The keyring-keyed wallet changeset used by src/wallet/mod.rs

`src/wallet/mod.rs` builds and stages a generic `ChangeSet<K>` whose fields
are `keyring`, `local_chain`, `tx_graph`, `indexer` and `locked_outpoints`;
its definition is not among the sources, so it is modelled from the spec's
top-level changeset description. Keychain identifiers are instantiated to
`Nat`. -/

namespace walletK

/-- Modelled from the spec: the top-level `wallet::ChangeSet<K>` composed of
the keyring, local-chain, tx-graph, indexer and locked-outpoints
sub-changesets, merged field-wise. -/
structure ChangeSet where
  keyring : keyring.ChangeSet Nat
  local_chain : local_chain.ChangeSet
  tx_graph : tx_graph.ChangeSet
  indexer : keychain_txout.ChangeSet
  locked_outpoints : locked_outpoints.ChangeSet

/-- The `Default` changeset. -/
def ChangeSet.empty : ChangeSet :=
  { keyring := keyring.ChangeSet.empty Nat
    local_chain := local_chain.ChangeSet.empty
    tx_graph := tx_graph.ChangeSet.empty
    indexer := keychain_txout.ChangeSet.empty
    locked_outpoints := locked_outpoints.ChangeSet.empty }

/-- Field-wise merge of the keyring-keyed wallet changeset. -/
def ChangeSet.merge (self other : ChangeSet) : ChangeSet :=
  { keyring := self.keyring.merge other.keyring
    local_chain := self.local_chain.merge other.local_chain
    tx_graph := self.tx_graph.merge other.tx_graph
    indexer := self.indexer.merge other.indexer
    locked_outpoints := self.locked_outpoints.merge other.locked_outpoints }

/-- `From<local_chain::ChangeSet>`: a wallet changeset holding only the
local-chain delta. -/
def ChangeSet.ofLocalChain (cs : local_chain.ChangeSet) : ChangeSet :=
  { ChangeSet.empty with local_chain := cs }

/-- `From<keychain_txout::ChangeSet>`: a wallet changeset holding only the
indexer delta. -/
def ChangeSet.ofIndexer (cs : keychain_txout.ChangeSet) : ChangeSet :=
  { ChangeSet.empty with indexer := cs }

/-- `From<tx_graph::ChangeSet>`: a wallet changeset holding only the tx-graph
delta. -/
def ChangeSet.ofTxGraph (cs : tx_graph.ChangeSet) : ChangeSet :=
  { ChangeSet.empty with tx_graph := cs }

end walletK

/-! ### LocalChain, modelled from the spec -/

/-- A chain checkpoint supplied by an update: the proposed new tip together
with the ancestor block ids it links back through, highest first. -/
structure CheckPoint where
  blocks : List BlockId
deriving DecidableEq, Repr

/-- Error returned when a new chain checkpoint cannot be connected to the
existing local chain. -/
structure CannotConnectError where
  try_include_height : Nat
deriving DecidableEq, Repr

/-- Modelled from the spec: the `LocalChain` of the `bdk_chain` dependency, an
ordered height-indexed set of block-id checkpoints with a current tip. -/
structure LocalChain where
  blocks : FMap Nat Nat
  tip : BlockId

/-- Modelled from the spec: a checkpoint can be connected when it shares a
reconciliation point with the existing chain — some block of the checkpoint
agrees with the chain's checkpoint at the same height. -/
def LocalChain.can_connect (chain : LocalChain) (cp : CheckPoint) : Bool :=
  cp.blocks.any (fun b => chain.blocks.lookup b.height = some b.hash)

/-- The new tip proposed by a checkpoint (its highest block). -/
def CheckPoint.tip (cp : CheckPoint) (dflt : BlockId) : BlockId :=
  match cp.blocks with
  | [] => dflt
  | b :: _ => b

/-- The block changes introduced by a checkpoint. -/
def CheckPoint.delta (cp : CheckPoint) : FMap Nat (Option Nat) :=
  cp.blocks.foldr (fun b m => m.insert b.height (some b.hash)) ∅

/-- Modelled from the spec: `LocalChain::apply_update` connects a new tip
checkpoint, evicting conflicting checkpoints, and returns the chain delta;
it fails with `CannotConnectError` when the checkpoint shares no
reconciliation point with the existing chain. -/
def LocalChain.apply_update (chain : LocalChain) (cp : CheckPoint) :
    Except CannotConnectError (LocalChain × local_chain.ChangeSet) :=
  if chain.can_connect cp then
    .ok ({ blocks := cp.blocks.foldr (fun b m => m.insert b.height b.hash) chain.blocks
           tip := cp.tip chain.tip },
         { blocks := cp.delta })
  else
    .error { try_include_height := chain.tip.height }

/-! ### Keychain index revelation and tx-graph update, modelled from the spec -/

/-- Modelled from the spec: `KeychainTxOutIndex::reveal_to_target_multi`
raises each keychain's last revealed index to the supplied target, never
lowering it (revelation is monotonic), and returns the new index table
together with the changeset of the indices that actually changed. -/
def reveal_to_target_multi (idx : OMap Nat Nat) (targets : List (Nat × Nat)) :
    OMap Nat Nat × keychain_txout.ChangeSet :=
  let step := fun (acc : OMap Nat Nat × OMap Nat Nat) (kt : Nat × Nat) =>
    match acc.1 kt.1 with
    | some cur =>
      if cur < kt.2 then (acc.1.update kt.1 kt.2, acc.2.update kt.1 kt.2) else acc
    | none => (acc.1.update kt.1 kt.2, acc.2.update kt.1 kt.2)
  let r := targets.foldl step (idx, OMap.empty)
  (r.1, { last_revealed := r.2, spk_cache := ∅ })

/-- A transaction update delivered by a chain-data source: new transactions,
floating txouts, anchors, and the seen/evicted timestamps. -/
structure TxUpdate where
  txs : Finset Txid
  txouts : FMap OutPoint Nat
  anchors : Finset (ConfirmationBlockTime × Txid)
  seen_ats : List (Txid × Nat)
  evicted_ats : List (Txid × Nat)

/-- The empty transaction update. -/
def TxUpdate.empty : TxUpdate :=
  { txs := ∅, txouts := ∅, anchors := ∅, seen_ats := [], evicted_ats := [] }

/-- The tx-graph changeset carrying the data of a transaction update. -/
def TxUpdate.changeset (u : TxUpdate) : tx_graph.ChangeSet :=
  { txs := u.txs
    txouts := u.txouts
    anchors := u.anchors
    last_seen := u.seen_ats.foldl (fun m p => OMap.unionWith Nat.max m (OMap.empty.update p.1 p.2)) OMap.empty
    first_seen := u.seen_ats.foldl (fun m p => OMap.unionWith Nat.min m (OMap.empty.update p.1 p.2)) OMap.empty
    last_evicted := u.evicted_ats.foldl (fun m p => OMap.unionWith Nat.max m (OMap.empty.update p.1 p.2)) OMap.empty }

/-- Modelled from the spec: `IndexedTxGraph::apply_update` merges a
transaction update into the graph (infallibly) and returns the resulting
delta. The graph state is represented by its accumulated changeset. -/
def IndexedTxGraph.apply_update (g : tx_graph.ChangeSet) (u : TxUpdate) :
    tx_graph.ChangeSet × tx_graph.ChangeSet :=
  (g.merge u.changeset, u.changeset)

/-! ### Wallet and apply_update (src/wallet/mod.rs) -/

/-- The wallet state driven by `apply_update`: local chain, keychain index,
indexed tx graph, and the staged changeset. Keychain identifiers are
instantiated to `Nat`. -/
structure Wallet where
  chain : LocalChain
  index : OMap Nat Nat
  graph : tx_graph.ChangeSet
  stage : walletK.ChangeSet

/-- An update to the wallet: last active derivation indices per keychain, a
transaction update, and an optional new chain checkpoint. -/
structure Update where
  last_active_indices : List (Nat × Nat)
  tx_update : TxUpdate
  chain : Option CheckPoint

/-- The tail of `Wallet::apply_update` after the optional chain step: reveal
the supplied indices, apply the transaction update, and stage the single
accumulated changeset. -/
def Wallet.apply_update_rest (w : Wallet) (u : Update) (changeset : walletK.ChangeSet) : Wallet :=
  let r := reveal_to_target_multi w.index u.last_active_indices
  let changeset := changeset.merge (walletK.ChangeSet.ofIndexer r.2)
  let g := IndexedTxGraph.apply_update w.graph u.tx_update
  let changeset := changeset.merge (walletK.ChangeSet.ofTxGraph g.2)
  { w with index := r.1, graph := g.1, stage := w.stage.merge changeset }

/-- `Wallet::apply_update`: if a chain checkpoint is supplied, connect it
first (returning the error and leaving the wallet untouched when it cannot be
connected); then reveal indices and merge the transaction update, staging the
three deltas as one changeset. The pair returned is the wallet after the call
together with the error, if any — mirroring `&mut self` plus
`Result<(), CannotConnectError>`. -/
def Wallet.apply_update (w : Wallet) (u : Update) : Wallet × Option CannotConnectError :=
  match u.chain with
  | some tip =>
    match w.chain.apply_update tip with
    | .error e => (w, some e)
    | .ok cr =>
      (Wallet.apply_update_rest { w with chain := cr.1 } u
        (walletK.ChangeSet.empty.merge (walletK.ChangeSet.ofLocalChain cr.2)), none)
  | none => (Wallet.apply_update_rest w u walletK.ChangeSet.empty, none)

/-- The single combined changeset of an update — chain delta, keychain reveal
delta and transaction-graph delta merged in order — as staged by a successful
`apply_update`. -/
def Wallet.update_changeset (w : Wallet) (u : Update) : walletK.ChangeSet :=
  let base :=
    match u.chain with
    | some tip =>
      match w.chain.apply_update tip with
      | .ok cr => walletK.ChangeSet.empty.merge (walletK.ChangeSet.ofLocalChain cr.2)
      | .error _ => walletK.ChangeSet.empty
    | none => walletK.ChangeSet.empty
  let rcs := (reveal_to_target_multi w.index u.last_active_indices).2
  let gcs := (IndexedTxGraph.apply_update w.graph u.tx_update).2
  (base.merge (walletK.ChangeSet.ofIndexer rcs)).merge (walletK.ChangeSet.ofTxGraph gcs)

/-! ### Wallet events (src/wallet/event.rs) -/

/-- Events representing changes to wallet transactions. -/
inductive WalletEvent where
  | chainTipChanged (old_tip new_tip : BlockId)
  | txConfirmed (txid : Txid) (tx : Transaction)
      (block_time : ConfirmationBlockTime) (old_block_time : Option ConfirmationBlockTime)
  | txUnconfirmed (txid : Txid) (tx : Transaction)
      (old_block_time : Option ConfirmationBlockTime)
  | txReplaced (txid : Txid) (tx : Transaction) (conflicts : List (Nat × Txid))
  | txDropped (txid : Txid) (tx : Transaction)
deriving DecidableEq, Repr

/-- A snapshot of the wallet's canonical transactions: txid to transaction and
chain position, listed in the iteration order of the underlying map. -/
abbrev TxMap := List (Txid × (Transaction × ChainPosition))

/-- Modelled from the spec: the spends index of the wallet's tx graph — which
txids spend which outpoints — used by `TxGraph::direct_conflicts`. -/
abbrev GraphSpends := List (OutPoint × Txid)

/-- Modelled from the spec: `TxGraph::direct_conflicts` returns, for each
input (by index) of the given transaction, the txids of other graph
transactions spending the same outpoint. -/
def direct_conflicts (g : GraphSpends) (tx : Transaction) : List (Nat × Txid) :=
  tx.inputs.enum.flatMap (fun p =>
    g.filterMap (fun s =>
      if s.1 = p.2 ∧ s.2 ≠ tx.compute_txid then some (p.1, s.2) else none))

/-- The confirmation-transition event for one after-snapshot entry, as matched
in the body of `wallet_events`. -/
def transition_event (txs1 : TxMap) (txid2 : Txid) (tx2 : Transaction)
    (pos2 : ChainPosition) : Option WalletEvent :=
  match txs1.lookup txid2 with
  | some p1 =>
    match p1.2, pos2 with
    | .unconfirmed _ _, .confirmed anchor _ =>
      some (.txConfirmed txid2 tx2 anchor none)
    | .confirmed anchor _, .unconfirmed _ _ =>
      some (.txUnconfirmed txid2 tx2 (some anchor))
    | .confirmed anchor1 _, .confirmed anchor2 _ =>
      if anchor1 ≠ anchor2 then some (.txConfirmed txid2 tx2 anchor2 (some anchor1)) else none
    | .unconfirmed _ _, .unconfirmed _ _ => none
  | none =>
    match pos2 with
    | .confirmed anchor _ => some (.txConfirmed txid2 tx2 anchor none)
    | .unconfirmed _ _ => some (.txUnconfirmed txid2 tx2 none)

/-- The replaced-or-dropped event for one before-snapshot entry that is no
longer canonical, as emitted by `wallet_events`. -/
def dropped_event (g : GraphSpends) (txid1 : Txid) (tx1 : Transaction) : WalletEvent :=
  let conflicts := direct_conflicts g tx1
  if conflicts.isEmpty then .txDropped txid1 tx1 else .txReplaced txid1 tx1 conflicts

/-- `wallet_events`: diff the chain tip and the canonical-transaction
snapshots before and after an update, pushing the chain-tip event first, then
the confirmation-transition events over the after-snapshot, then the
replaced/dropped events over the before-snapshot entries absent after. -/
def wallet_events (g : GraphSpends) (chain_tip1 chain_tip2 : BlockId)
    (wallet_txs1 wallet_txs2 : TxMap) : List WalletEvent :=
  (if chain_tip1 ≠ chain_tip2 then [.chainTipChanged chain_tip1 chain_tip2] else [])
    ++ wallet_txs2.filterMap (fun e => transition_event wallet_txs1 e.1 e.2.1 e.2.2)
    ++ wallet_txs1.filterMap (fun e =>
        if (wallet_txs2.lookup e.1).isSome then none
        else some (dropped_event g e.1 e.2.1))

/-- The per-txid confirmation-transition rule exactly as the spec dictates it:
Unconfirmed before and Confirmed after gives `TxConfirmed` with no old block
time; Confirmed before and Unconfirmed after gives `TxUnconfirmed` carrying
the previous anchor; Confirmed before and after gives `TxConfirmed` carrying
the previous anchor when the anchor changed and nothing when it is the same;
Unconfirmed on both sides gives nothing; a txid absent before gives
`TxConfirmed` or `TxUnconfirmed` with no old block time according to its
after-position. -/
def spec_transition (txs1 : TxMap) (e : Txid × (Transaction × ChainPosition)) :
    Option WalletEvent :=
  match txs1.lookup e.1, e.2.2 with
  | some (_, .unconfirmed _ _), .confirmed a _ => some (.txConfirmed e.1 e.2.1 a none)
  | some (_, .confirmed a1 _), .unconfirmed _ _ => some (.txUnconfirmed e.1 e.2.1 (some a1))
  | some (_, .confirmed a1 _), .confirmed a2 _ =>
    if a1 = a2 then none else some (.txConfirmed e.1 e.2.1 a2 (some a1))
  | some (_, .unconfirmed _ _), .unconfirmed _ _ => none
  | none, .confirmed a _ => some (.txConfirmed e.1 e.2.1 a none)
  | none, .unconfirmed _ _ => some (.txUnconfirmed e.1 e.2.1 none)

/-- Whether an event is a confirmation-transition event (`TxConfirmed` or
`TxUnconfirmed`). -/
def is_tx_status_event : WalletEvent → Bool
  | .txConfirmed _ _ _ _ => true
  | .txUnconfirmed _ _ _ => true
  | _ => false

/-- The replaced/dropped rule for a before-only txid as the claim dictates it:
`TxReplaced` when the transaction has a direct input-conflict with a
transaction present in the after-snapshot, `TxDropped` otherwise. The
conflict list follows the claim's wording: (input index, conflicting txid)
pairs over the present transactions. -/
def present_input_conflicts (txs2 : TxMap) (tx : Transaction) : List (Nat × Txid) :=
  tx.inputs.enum.flatMap (fun p =>
    txs2.filterMap (fun e =>
      if p.2 ∈ e.2.1.inputs ∧ e.1 ≠ tx.compute_txid then some (p.1, e.1) else none))

/-- The replaced/dropped rule as amended: a before-only txid is reported
`TxReplaced` with its direct conflicts from the wallet's whole tx graph when
that conflict list is non-empty, and `TxDropped` otherwise. -/
def spec_dropped (g : GraphSpends) (txs2 : TxMap)
    (e : Txid × (Transaction × ChainPosition)) : Option WalletEvent :=
  if (txs2.lookup e.1).isSome then none
  else if (direct_conflicts g e.2.1).isEmpty then some (.txDropped e.1 e.2.1)
  else some (.txReplaced e.1 e.2.1 (direct_conflicts g e.2.1))

/-! ### KeyRing (src/keyring/mod.rs) -/

/-- Errors of `KeyRing` construction and loading, with the variants used by
`src/keyring/mod.rs` (the descriptor-error payload is abstracted). -/
inductive KeyRingError (K : Type) where
  | descriptorInvalid
  | descMissing
  | descAlreadyExists (descriptor : Descriptor)
  | keychainAlreadyExists (keychain : K)
  | missingNetwork
  | networkMismatch (loaded expected : Network)
  | missingKeychain (keychain : K)
  | descriptorMismatch (keychain : K) (loaded expected : Descriptor)
deriving DecidableEq, Repr

/-- The KeyRing: a network and the keychain-to-descriptor map. -/
structure KeyRing (K : Type) where
  network : Network
  descriptors : FMap K Descriptor
deriving DecidableEq

/-- The keychain/descriptor entries of a finite map in ascending keychain
order — the iteration order of the underlying `BTreeMap`. -/
def sorted_entries {K : Type} [LinearOrder K] (m : FMap K Descriptor) :
    List (K × Descriptor) :=
  (m.keys.sort (· ≤ ·)).filterMap (fun k => (m.lookup k).map (fun d => (k, d)))

/-- The duplicate-binding scan of `KeyRing::add_descriptor`: walk the existing
entries in iteration order and report the first conflict — a descriptor bound
to a different keychain, or a keychain bound to a different descriptor. -/
def add_descriptor_scan {K : Type} [DecidableEq K] (keychain : K) (descriptor : Descriptor) :
    List (K × Descriptor) → Option (KeyRingError K)
  | [] => none
  | (keychain_old, desc) :: rest =>
    if desc = descriptor ∧ keychain_old ≠ keychain then
      some (.descAlreadyExists desc)
    else if keychain_old = keychain ∧ desc ≠ descriptor then
      some (.keychainAlreadyExists keychain)
    else add_descriptor_scan keychain descriptor rest

/-- `KeyRing::add_descriptor`: validate the descriptor, fail on a conflicting
existing binding, and otherwise insert the pair, returning the ring with the
pair inserted together with the incremental changeset holding just that
pair. -/
def KeyRing.add_descriptor {K : Type} [LinearOrder K] (kr : KeyRing K)
    (keychain : K) (descriptor : Descriptor) :
    Except (KeyRingError K) (KeyRing K × keyring.ChangeSet K) :=
  if check_wallet_descriptor descriptor = false then .error .descriptorInvalid
  else
    match add_descriptor_scan keychain descriptor (sorted_entries kr.descriptors) with
    | some e => .error e
    | none =>
      .ok ({ kr with descriptors := kr.descriptors.insert keychain descriptor },
           { network := none
             descriptors := Finmap.singleton keychain descriptor
             default_keychain := none })

/-- The check loop of `KeyRing::from_changeset` over the requested keychain
checks: a requested keychain must be present, and when an expected descriptor
extractor is supplied it must extract successfully and agree on the
descriptor id. -/
def check_descs_loop {K : Type} [DecidableEq K] (loaded_network : Network)
    (m : FMap K Descriptor) :
    List (K × Option (Network → Except Unit Descriptor)) → Option (KeyRingError K)
  | [] => none
  | (keychain, check_desc) :: rest =>
    match m.lookup keychain with
    | none => some (.missingKeychain keychain)
    | some loaded_desc =>
      match check_desc with
      | none => check_descs_loop loaded_network m rest
      | some make_desc =>
        match make_desc loaded_network with
        | .error _ => some .descriptorInvalid
        | .ok exp_desc =>
          if exp_desc.descriptor_id ≠ loaded_desc.descriptor_id then
            some (.descriptorMismatch keychain loaded_desc exp_desc)
          else check_descs_loop loaded_network m rest

/-- The tail of `KeyRing::from_changeset` after the network checks: check
every loaded descriptor's validity, run the requested per-keychain checks,
and reconstruct the ring from the changeset's fields. -/
def KeyRing.from_changeset_checked {K : Type} [DecidableEq K]
    (changeset : keyring.ChangeSet K) (loaded_network : Network)
    (check_descs : List (K × Option (Network → Except Unit Descriptor))) :
    Except (KeyRingError K) (Option (KeyRing K)) :=
  if h : ∀ p ∈ changeset.descriptors.entries, check_wallet_descriptor p.2 = true then
    match check_descs_loop loaded_network changeset.descriptors check_descs with
    | some e => .error e
    | none => .ok (some { network := loaded_network, descriptors := changeset.descriptors })
  else .error .descriptorInvalid

/-- `KeyRing::from_changeset`: `Ok(None)` for the entirely empty changeset;
otherwise require the network, check it against the expected one when
supplied, and continue with the descriptor checks. -/
def KeyRing.from_changeset {K : Type} [DecidableEq K] (changeset : keyring.ChangeSet K)
    (check_network : Option Network)
    (check_descs : List (K × Option (Network → Except Unit Descriptor))) :
    Except (KeyRingError K) (Option (KeyRing K)) :=
  if changeset.is_empty then .ok none
  else
    match changeset.network with
    | none => .error .missingNetwork
    | some loaded_network =>
      match check_network with
      | some expected_network =>
        if loaded_network ≠ expected_network then
          .error (.networkMismatch loaded_network expected_network)
        else KeyRing.from_changeset_checked changeset loaded_network check_descs
      | none => KeyRing.from_changeset_checked changeset loaded_network check_descs

/-! ### Canonicalization (modelled from the spec) and Wallet::transactions -/

/-- A canonicalization candidate: a transaction with its inputs, its anchor
if any, and its last-seen timestamp. -/
structure CandTx where
  txid : Txid
  inputs : List OutPoint
  anchor : Option ConfirmationBlockTime
  last_seen : Option Nat
deriving DecidableEq, Repr

/-- The wallet view the canonicalization pass runs over: the blocks of the
local best chain, the graph's candidate transactions, and the relevance
predicate of the keychain index. -/
structure CanonWallet where
  chain_blocks : List BlockId
  txs : List CandTx
  relevant : Txid → Bool

/-- Whether a candidate is anchored in a block of the current best chain. -/
def anchored_in_chain (chain_blocks : List BlockId) (t : CandTx) : Bool :=
  match t.anchor with
  | some a => chain_blocks.contains a.block_id
  | none => false

/-- Whether two transactions conflict on an input: they are distinct and
spend at least one common outpoint. -/
def conflicts_with (t u : CandTx) : Bool :=
  t.txid ≠ u.txid && t.inputs.any (fun op => u.inputs.contains op)

/-- Anchor height of a candidate, used for the anchor-recency ordering. -/
def anchor_height (t : CandTx) : Nat :=
  match t.anchor with
  | some a => a.block_id.height
  | none => 0

/-- Last-seen timestamp of a candidate, used for the last-seen ordering. -/
def last_seen_key (t : CandTx) : Nat :=
  t.last_seen.getD 0

/-- Modelled from the spec: the candidate order of the canonicalization pass —
transactions anchored in the best chain first, most recent anchor first, then
the unconfirmed candidates by descending last-seen timestamp (ties broken by
anchor recency, then by last-seen timestamp). -/
def canonical_candidates (w : CanonWallet) : List CandTx :=
  (w.txs.filter (fun t => anchored_in_chain w.chain_blocks t)).insertionSort
      (fun a b => anchor_height b ≤ anchor_height a)
    ++ (w.txs.filter (fun t => !anchored_in_chain w.chain_blocks t)).insertionSort
      (fun a b => last_seen_key b ≤ last_seen_key a)

/-- Modelled from the spec: `TxGraph::list_canonical_txs` — a greedy pass in
candidate priority order; a transaction is canonical when it conflicts with
no transaction already chosen as canonical. -/
def list_canonical_txs (w : CanonWallet) : List CandTx :=
  (canonical_candidates w).foldl
    (fun acc t => if acc.any (fun u => conflicts_with u t) then acc else acc ++ [t]) []

/-- `Wallet::transactions`: the canonical transactions that are relevant to
the wallet. -/
def CanonWallet.transactions (w : CanonWallet) : List CandTx :=
  (list_canonical_txs w).filter (fun t => w.relevant t.txid)

/-- Modelled from the spec:
`IndexedTxGraph::batch_insert_relevant_evicted_at` records an eviction
timestamp only for relevant txids that are currently canonical and
unconfirmed. -/
def batch_insert_relevant_evicted_at (w : CanonWallet) (evicted_txs : List (Txid × Nat)) :
    List (Txid × Nat) :=
  evicted_txs.filter (fun e =>
    w.relevant e.1 &&
      (list_canonical_txs w).any (fun t =>
        t.txid = e.1 && !anchored_in_chain w.chain_blocks t))

/-- `Wallet::apply_evicted_txs`: keep only the supplied txids that are
canonical at the time of the call, then record their eviction timestamps via
`batch_insert_relevant_evicted_at`; the result is the list of evicted-at
entries added to the staged changeset. -/
def apply_evicted_txs (w : CanonWallet) (evicted_txs : List (Txid × Nat)) :
    List (Txid × Nat) :=
  let canon_txids := (list_canonical_txs w).map (fun t => t.txid)
  batch_insert_relevant_evicted_at w
    (evicted_txs.filter (fun e => canon_txids.contains e.1))

/-! ### Locked outpoints (src/wallet/mod.rs lines 650-681, 320-333) -/

/-- Shorthand for the locked-outpoints changeset type. -/
abbrev LockedOutpointsCS := locked_outpoints.ChangeSet

/-- The locked-outpoints aspect of the `Wallet`: the in-memory set of locked
outpoints and the staged locked-outpoints changeset. -/
structure LockedWallet where
  locked_outpoints : Finset OutPoint
  stage : LockedOutpointsCS

/-- `Wallet::is_outpoint_locked`. -/
def LockedWallet.is_outpoint_locked (w : LockedWallet) (outpoint : OutPoint) : Bool :=
  outpoint ∈ w.locked_outpoints

/-- `Wallet::list_locked_outpoints`: the locked outpoints reported by the
wallet. -/
def LockedWallet.list_locked_outpoints (w : LockedWallet) : Finset OutPoint :=
  w.locked_outpoints

/-- `Wallet::lock_outpoint`: if the outpoint is newly inserted into the
in-memory set, stage the marker `(outpoint, true)`. -/
def LockedWallet.lock_outpoint (w : LockedWallet) (outpoint : OutPoint) : LockedWallet :=
  if outpoint ∈ w.locked_outpoints then w
  else
    { locked_outpoints := insert outpoint w.locked_outpoints
      stage := w.stage.merge { outpoints := Finmap.singleton outpoint true } }

/-- `Wallet::unlock_outpoint`: if the outpoint is removed from the in-memory
set, stage the explicit marker `(outpoint, false)`. -/
def LockedWallet.unlock_outpoint (w : LockedWallet) (outpoint : OutPoint) : LockedWallet :=
  if outpoint ∈ w.locked_outpoints then
    { locked_outpoints := w.locked_outpoints.erase outpoint
      stage := w.stage.merge { outpoints := Finmap.singleton outpoint false } }
  else w

/-- The empty locked-outpoints stage of a freshly loaded wallet. -/
def emptyLockedStage : locked_outpoints.ChangeSet :=
  locked_outpoints.ChangeSet.empty

/-- The locked-outpoint set rebuilt by `Wallet::load_with_params` from an
aggregate changeset: the outpoints whose latest merged marker is `true`. -/
def load_locked_outpoints (cs : locked_outpoints.ChangeSet) : Finset OutPoint :=
  ((cs.outpoints.entries.filter (fun e => e.2 = true)).map (fun e => e.1)).toFinset

/-- The locked-outpoints aspect of a wallet loaded from an aggregate
changeset: the filtered set, with an empty stage. -/
def load_locked_wallet (cs : locked_outpoints.ChangeSet) : LockedWallet :=
  { locked_outpoints := load_locked_outpoints cs
    stage := emptyLockedStage }

/-! ### Claim-side predicates -/

/-- The descriptor is already bound to a different keychain id. -/
abbrev desc_bound {K : Type} [DecidableEq K] (kr : KeyRing K) (keychain : K)
    (descriptor : Descriptor) : Prop :=
  ∃ k2 ∈ kr.descriptors.keys, k2 ≠ keychain ∧ kr.descriptors.lookup k2 = some descriptor

/-- The keychain id is already bound to a different descriptor. -/
abbrev keychain_bound {K : Type} [DecidableEq K] (kr : KeyRing K) (keychain : K)
    (descriptor : Descriptor) : Prop :=
  kr.descriptors.lookup keychain ≠ none ∧ kr.descriptors.lookup keychain ≠ some descriptor

/-- The error shapes `KeyRing::from_changeset` may surface: missing network,
network mismatch, invalid descriptor, missing requested keychain, or
descriptor-id mismatch. -/
def is_load_error {K : Type} : KeyRingError K → Prop
  | .missingNetwork => True
  | .networkMismatch _ _ => True
  | .descriptorInvalid => True
  | .missingKeychain _ => True
  | .descriptorMismatch _ _ _ => True
  | _ => False

/-! ### Concrete inputs used by counterexamples and witnesses -/

/-- A one-block local chain at genesis. -/
def exChain : LocalChain :=
  { blocks := Finmap.singleton 0 0, tip := { height := 0, hash := 0 } }

/-- A fresh wallet on `exChain`. -/
def exWallet : Wallet :=
  { chain := exChain, index := OMap.empty
    graph := tx_graph.ChangeSet.empty, stage := walletK.ChangeSet.empty }

/-- An update carrying no chain checkpoint. -/
def exUpdateNoChain : Update :=
  { last_active_indices := [(0, 3)], tx_update := TxUpdate.empty, chain := none }

/-- An update whose checkpoint shares no block with `exChain`. -/
def exUpdateBadChain : Update :=
  { last_active_indices := [], tx_update := TxUpdate.empty
    chain := some { blocks := [{ height := 5, hash := 99 }] } }

/-- An outpoint spent by the example transactions. -/
def exOutPoint : OutPoint := { txid := 5, vout := 0 }

/-- An unconfirmed transaction spending `exOutPoint`. -/
def exTx : Transaction := { compute_txid := 1, inputs := [exOutPoint] }

/-- A tx-graph spends index where txid 3 also spends `exOutPoint` — txid 3 is
in the graph but not in any snapshot. -/
def exGraph : GraphSpends := [(exOutPoint, 3)]

/-- A before-snapshot containing only `exTx`, unconfirmed. -/
def exTxs1 : TxMap := [(1, (exTx, .unconfirmed none none))]

/-- A fixed chain tip. -/
def exTip : BlockId := { height := 0, hash := 0 }

/-- A valid example descriptor. -/
def exDescX : Descriptor := { descriptor_id := 0, valid := true }

/-- A second, different valid example descriptor. -/
def exDescY : Descriptor := { descriptor_id := 1, valid := true }

/-- A keyring binding keychain 1 to `exDescX` and keychain 2 to `exDescY`. -/
def exKeyRing : KeyRing Nat :=
  { network := .regtest, descriptors := (Finmap.singleton 1 exDescX).insert 2 exDescY }

/-- A keyring binding only keychain 1 to `exDescX`. -/
def exKeyRing1 : KeyRing Nat :=
  { network := .regtest, descriptors := Finmap.singleton 1 exDescX }

/-- A non-empty keyring changeset with a network and one descriptor. -/
def exKeyringCS : keyring.ChangeSet Nat :=
  { network := some .regtest, descriptors := Finmap.singleton 1 exDescX
    default_keychain := none }

/-- An unconfirmed candidate transaction. -/
def exCand1 : CandTx :=
  { txid := 1, inputs := [exOutPoint], anchor := none, last_seen := some 5 }

/-- A wallet whose only transaction is the unconfirmed `exCand1`. -/
def exCanonWallet : CanonWallet :=
  { chain_blocks := [], txs := [exCand1], relevant := fun _ => true }

/-- An unconfirmed candidate spending outpoint (10, 0). -/
def exCandA : CandTx :=
  { txid := 1, inputs := [{ txid := 10, vout := 0 }], anchor := none, last_seen := some 5 }

/-- An unconfirmed candidate spending outpoint (11, 0), not conflicting with
`exCandA`. -/
def exCandB : CandTx :=
  { txid := 2, inputs := [{ txid := 11, vout := 0 }], anchor := none, last_seen := some 4 }

/-- A wallet holding the two non-conflicting candidates. -/
def exCanonWallet2 : CanonWallet :=
  { chain_blocks := [], txs := [exCandA, exCandB], relevant := fun _ => true }

/-- An example outpoint for locking. -/
def exOutPoint0 : OutPoint := { txid := 7, vout := 1 }

/-- A wallet whose in-memory locked set already contains `exOutPoint0`, with
nothing staged. -/
def exLockedWallet : LockedWallet :=
  { locked_outpoints := {exOutPoint0}, stage := emptyLockedStage }

/-- An empty aggregate locked-outpoints changeset. -/
def exLockedCS : locked_outpoints.ChangeSet := { outpoints := ∅ }

/-- A keyring changeset whose network is already set. -/
def exKrA : keyring.ChangeSet Nat :=
  { network := some .bitcoin, descriptors := ∅, default_keychain := none }

/-- A keyring changeset with a different network, a descriptor and a default
keychain. -/
def exKrB : keyring.ChangeSet Nat :=
  { network := some .testnet, descriptors := Finmap.singleton 1 exDescX
    default_keychain := some 1 }

/-! ## Lemmas: Option and map merge algebra -/

theorem oWrite_assoc {α : Type} (a b c : Option α) :
    oWrite (oWrite a b) c = oWrite a (oWrite b c) := by
  cases c <;> cases b <;> rfl

theorem oWrite_self {α : Type} (a : Option α) : oWrite a a = a := by
  cases a <;> rfl

theorem oWrite_none_left {α : Type} (a : Option α) : oWrite none a = a := by
  cases a <;> rfl

theorem oWrite_none_right {α : Type} (a : Option α) : oWrite a none = a := rfl

theorem oKeep_assoc {α : Type} (a b c : Option α) :
    oKeep (oKeep a b) c = oKeep a (oKeep b c) := by
  cases a <;> cases b <;> rfl

theorem oKeep_self {α : Type} (a : Option α) : oKeep a a = a := by
  cases a <;> rfl

theorem oKeep_none_left {α : Type} (a : Option α) : oKeep none a = a := rfl

theorem oKeep_none_right {α : Type} (a : Option α) : oKeep a none = a := by
  cases a <;> rfl

theorem OMap.unionWith_assoc {α β : Type} (f : β → β → β)
    (hf : ∀ x y z, f (f x y) z = f x (f y z)) (m₁ m₂ m₃ : OMap α β) :
    OMap.unionWith f (OMap.unionWith f m₁ m₂) m₃
      = OMap.unionWith f m₁ (OMap.unionWith f m₂ m₃) := by
  funext a
  simp only [OMap.unionWith]
  cases m₁ a <;> cases m₂ a <;> cases m₃ a <;> simp [hf]

theorem OMap.unionWith_self {α β : Type} (f : β → β → β)
    (hf : ∀ x, f x x = x) (m : OMap α β) : OMap.unionWith f m m = m := by
  funext a
  simp only [OMap.unionWith]
  cases m a <;> simp [hf]

theorem OMap.unionWith_empty_left {α β : Type} (f : β → β → β) (m : OMap α β) :
    OMap.unionWith f OMap.empty m = m := by
  funext a
  simp only [OMap.unionWith, OMap.empty]

theorem OMap.unionWith_empty_right {α β : Type} (f : β → β → β) (m : OMap α β) :
    OMap.unionWith f m OMap.empty = m := by
  funext a
  simp only [OMap.unionWith, OMap.empty]
  cases m a <;> rfl

theorem FMap.union_self {α β : Type} [DecidableEq α] (s : FMap α β) : s ∪ s = s := by
  apply Finmap.ext_lookup
  intro x
  by_cases h : x ∈ s
  · rw [Finmap.lookup_union_left h]
  · rw [Finmap.lookup_union_right h]

theorem FMap.lookup_union_eq_oKeep {α β : Type} [DecidableEq α] (s₁ s₂ : FMap α β) (a : α) :
    (s₁ ∪ s₂).lookup a = oKeep (s₁.lookup a) (s₂.lookup a) := by
  by_cases h : a ∈ s₁
  · rw [Finmap.lookup_union_left h]
    rcases hx : s₁.lookup a with _ | x
    · exact absurd (Finmap.lookup_eq_none.mp hx) (fun hn => hn h)
    · rfl
  · rw [Finmap.lookup_union_right h, Finmap.lookup_eq_none.mpr h, oKeep_none_left]

/-! ## Lemmas: sub-changeset merge monoids -/

theorem keyring_merge_assoc {K : Type} [DecidableEq K] (A B C : keyring.ChangeSet K) :
    (A.merge B).merge C = A.merge (B.merge C) := by
  simp only [keyring.ChangeSet.merge, keyring.ChangeSet.mk.injEq]
  exact ⟨oKeep_assoc _ _ _, Finmap.union_assoc.symm, oWrite_assoc _ _ _⟩

theorem keyring_merge_self {K : Type} [DecidableEq K] (A : keyring.ChangeSet K) :
    A.merge A = A := by
  simp only [keyring.ChangeSet.merge]
  cases A with
  | mk n d dk =>
    simp only [keyring.ChangeSet.mk.injEq]
    exact ⟨oKeep_self _, FMap.union_self _, oWrite_self _⟩

theorem keyring_empty_merge {K : Type} [DecidableEq K] (A : keyring.ChangeSet K) :
    (keyring.ChangeSet.empty K).merge A = A := by
  simp only [keyring.ChangeSet.merge, keyring.ChangeSet.empty]
  cases A with
  | mk n d dk =>
    simp only [keyring.ChangeSet.mk.injEq]
    exact ⟨oKeep_none_left _, Finmap.union_empty, oWrite_none_left _⟩

theorem keyring_merge_empty {K : Type} [DecidableEq K] (A : keyring.ChangeSet K) :
    A.merge (keyring.ChangeSet.empty K) = A := by
  simp only [keyring.ChangeSet.merge, keyring.ChangeSet.empty]
  cases A with
  | mk n d dk =>
    simp only [keyring.ChangeSet.mk.injEq]
    exact ⟨oKeep_none_right _, Finmap.empty_union, oWrite_none_right _⟩

theorem locked_merge_assoc (A B C : locked_outpoints.ChangeSet) :
    (A.merge B).merge C = A.merge (B.merge C) := by
  simp only [locked_outpoints.ChangeSet.merge, locked_outpoints.ChangeSet.mk.injEq]
  exact Finmap.union_assoc.symm

theorem locked_merge_self (A : locked_outpoints.ChangeSet) : A.merge A = A := by
  cases A with
  | mk o =>
    simp only [locked_outpoints.ChangeSet.merge, locked_outpoints.ChangeSet.mk.injEq]
    exact FMap.union_self _

theorem locked_empty_merge (A : locked_outpoints.ChangeSet) :
    (locked_outpoints.ChangeSet.empty).merge A = A := by
  cases A with
  | mk o =>
    simp only [locked_outpoints.ChangeSet.merge, locked_outpoints.ChangeSet.empty,
      locked_outpoints.ChangeSet.mk.injEq]
    exact Finmap.union_empty

theorem locked_merge_empty (A : locked_outpoints.ChangeSet) :
    A.merge (locked_outpoints.ChangeSet.empty) = A := by
  cases A with
  | mk o =>
    simp only [locked_outpoints.ChangeSet.merge, locked_outpoints.ChangeSet.empty,
      locked_outpoints.ChangeSet.mk.injEq]
    exact Finmap.empty_union

theorem local_chain_merge_assoc (A B C : local_chain.ChangeSet) :
    (A.merge B).merge C = A.merge (B.merge C) := by
  simp only [local_chain.ChangeSet.merge, local_chain.ChangeSet.mk.injEq]
  exact Finmap.union_assoc.symm

theorem local_chain_merge_self (A : local_chain.ChangeSet) : A.merge A = A := by
  cases A with
  | mk b =>
    simp only [local_chain.ChangeSet.merge, local_chain.ChangeSet.mk.injEq]
    exact FMap.union_self _

theorem local_chain_empty_merge (A : local_chain.ChangeSet) :
    (local_chain.ChangeSet.empty).merge A = A := by
  cases A with
  | mk b =>
    simp only [local_chain.ChangeSet.merge, local_chain.ChangeSet.empty,
      local_chain.ChangeSet.mk.injEq]
    exact Finmap.union_empty

theorem local_chain_merge_empty (A : local_chain.ChangeSet) :
    A.merge (local_chain.ChangeSet.empty) = A := by
  cases A with
  | mk b =>
    simp only [local_chain.ChangeSet.merge, local_chain.ChangeSet.empty,
      local_chain.ChangeSet.mk.injEq]
    exact Finmap.empty_union

theorem tx_graph_merge_assoc (A B C : tx_graph.ChangeSet) :
    (A.merge B).merge C = A.merge (B.merge C) := by
  simp only [tx_graph.ChangeSet.merge, tx_graph.ChangeSet.mk.injEq]
  refine ⟨Finset.union_assoc _ _ _, Finmap.union_assoc.symm, Finset.union_assoc _ _ _,
    OMap.unionWith_assoc _ Nat.max_assoc _ _ _,
    OMap.unionWith_assoc _ Nat.min_assoc _ _ _,
    OMap.unionWith_assoc _ Nat.max_assoc _ _ _⟩

theorem tx_graph_merge_self (A : tx_graph.ChangeSet) : A.merge A = A := by
  cases A with
  | mk t tos a ls fs le =>
    simp only [tx_graph.ChangeSet.merge, tx_graph.ChangeSet.mk.injEq]
    exact ⟨Finset.union_self _, FMap.union_self _, Finset.union_self _,
      OMap.unionWith_self _ Nat.max_self _,
      OMap.unionWith_self _ Nat.min_self _,
      OMap.unionWith_self _ Nat.max_self _⟩

theorem tx_graph_empty_merge (A : tx_graph.ChangeSet) :
    (tx_graph.ChangeSet.empty).merge A = A := by
  cases A with
  | mk t tos a ls fs le =>
    simp only [tx_graph.ChangeSet.merge, tx_graph.ChangeSet.empty,
      tx_graph.ChangeSet.mk.injEq]
    exact ⟨Finset.empty_union _, Finmap.union_empty, Finset.empty_union _,
      OMap.unionWith_empty_left _ _, OMap.unionWith_empty_left _ _,
      OMap.unionWith_empty_left _ _⟩

theorem tx_graph_merge_empty (A : tx_graph.ChangeSet) :
    A.merge (tx_graph.ChangeSet.empty) = A := by
  cases A with
  | mk t tos a ls fs le =>
    simp only [tx_graph.ChangeSet.merge, tx_graph.ChangeSet.empty,
      tx_graph.ChangeSet.mk.injEq]
    exact ⟨Finset.union_empty _, Finmap.empty_union, Finset.union_empty _,
      OMap.unionWith_empty_right _ _, OMap.unionWith_empty_right _ _,
      OMap.unionWith_empty_right _ _⟩

theorem indexer_merge_assoc (A B C : keychain_txout.ChangeSet) :
    (A.merge B).merge C = A.merge (B.merge C) := by
  simp only [keychain_txout.ChangeSet.merge, keychain_txout.ChangeSet.mk.injEq]
  exact ⟨OMap.unionWith_assoc _ Nat.max_assoc _ _ _, Finmap.union_assoc.symm⟩

theorem indexer_merge_self (A : keychain_txout.ChangeSet) : A.merge A = A := by
  cases A with
  | mk lr sc =>
    simp only [keychain_txout.ChangeSet.merge, keychain_txout.ChangeSet.mk.injEq]
    exact ⟨OMap.unionWith_self _ Nat.max_self _, FMap.union_self _⟩

theorem indexer_empty_merge (A : keychain_txout.ChangeSet) :
    (keychain_txout.ChangeSet.empty).merge A = A := by
  cases A with
  | mk lr sc =>
    simp only [keychain_txout.ChangeSet.merge, keychain_txout.ChangeSet.empty,
      keychain_txout.ChangeSet.mk.injEq]
    exact ⟨OMap.unionWith_empty_left _ _, Finmap.union_empty⟩

theorem indexer_merge_empty (A : keychain_txout.ChangeSet) :
    A.merge (keychain_txout.ChangeSet.empty) = A := by
  cases A with
  | mk lr sc =>
    simp only [keychain_txout.ChangeSet.merge, keychain_txout.ChangeSet.empty,
      keychain_txout.ChangeSet.mk.injEq]
    exact ⟨OMap.unionWith_empty_right _ _, Finmap.empty_union⟩

theorem wallet_merge_assoc (A B C : wallet.ChangeSet) :
    (A.merge B).merge C = A.merge (B.merge C) := by
  simp only [wallet.ChangeSet.merge, wallet.ChangeSet.mk.injEq]
  exact ⟨oWrite_assoc _ _ _, oWrite_assoc _ _ _, oWrite_assoc _ _ _,
    local_chain_merge_assoc _ _ _, tx_graph_merge_assoc _ _ _,
    indexer_merge_assoc _ _ _, locked_merge_assoc _ _ _⟩

theorem wallet_merge_self (A : wallet.ChangeSet) : A.merge A = A := by
  cases A with
  | mk d cd n lc tg ix lo =>
    simp only [wallet.ChangeSet.merge, wallet.ChangeSet.mk.injEq]
    exact ⟨oWrite_self _, oWrite_self _, oWrite_self _, local_chain_merge_self _,
      tx_graph_merge_self _, indexer_merge_self _, locked_merge_self _⟩

theorem wallet_empty_merge (A : wallet.ChangeSet) :
    (wallet.ChangeSet.empty).merge A = A := by
  cases A with
  | mk d cd n lc tg ix lo =>
    simp only [wallet.ChangeSet.merge, wallet.ChangeSet.empty, wallet.ChangeSet.mk.injEq]
    exact ⟨oWrite_none_left _, oWrite_none_left _, oWrite_none_left _,
      local_chain_empty_merge _, tx_graph_empty_merge _,
      indexer_empty_merge _, locked_empty_merge _⟩

theorem wallet_merge_empty (A : wallet.ChangeSet) :
    A.merge (wallet.ChangeSet.empty) = A := by
  cases A with
  | mk d cd n lc tg ix lo =>
    simp only [wallet.ChangeSet.merge, wallet.ChangeSet.empty, wallet.ChangeSet.mk.injEq]
    exact ⟨oWrite_none_right _, oWrite_none_right _, oWrite_none_right _,
      local_chain_merge_empty _, tx_graph_merge_empty _,
      indexer_merge_empty _, locked_merge_empty _⟩

/-- Claim C4: for all changesets A, B, C of the wallet ChangeSet, keyring
ChangeSet, and locked-outpoints ChangeSet types, merge is associative,
merging a changeset into an equal one is idempotent (merge(A,A) equals A, and
applying it twice yields the same result as once), and the Default (empty)
changeset is the identity for merge. -/
theorem c4_changeset_merge_monoid :
    (∀ A B C : wallet.ChangeSet, (A.merge B).merge C = A.merge (B.merge C))
    ∧ (∀ A : wallet.ChangeSet, A.merge A = A ∧ (A.merge A).merge A = A.merge A)
    ∧ (∀ A : wallet.ChangeSet,
        (wallet.ChangeSet.empty).merge A = A ∧ A.merge wallet.ChangeSet.empty = A)
    ∧ (∀ (K : Type) [DecidableEq K] (A B C : keyring.ChangeSet K),
        (A.merge B).merge C = A.merge (B.merge C))
    ∧ (∀ (K : Type) [DecidableEq K] (A : keyring.ChangeSet K),
        A.merge A = A ∧ (A.merge A).merge A = A.merge A)
    ∧ (∀ (K : Type) [DecidableEq K] (A : keyring.ChangeSet K),
        (keyring.ChangeSet.empty K).merge A = A ∧ A.merge (keyring.ChangeSet.empty K) = A)
    ∧ (∀ A B C : locked_outpoints.ChangeSet, (A.merge B).merge C = A.merge (B.merge C))
    ∧ (∀ A : locked_outpoints.ChangeSet, A.merge A = A ∧ (A.merge A).merge A = A.merge A)
    ∧ (∀ A : locked_outpoints.ChangeSet,
        (locked_outpoints.ChangeSet.empty).merge A = A
          ∧ A.merge locked_outpoints.ChangeSet.empty = A) := by
  refine ⟨wallet_merge_assoc, ?_, ?_, ?_, ?_, ?_, locked_merge_assoc, ?_, ?_⟩
  · intro A
    exact ⟨wallet_merge_self A, by rw [wallet_merge_self A]; exact wallet_merge_self A⟩
  · intro A
    exact ⟨wallet_empty_merge A, wallet_merge_empty A⟩
  · intro K _ A B C
    exact keyring_merge_assoc A B C
  · intro K _ A
    exact ⟨keyring_merge_self A, by rw [keyring_merge_self A]; exact keyring_merge_self A⟩
  · intro K _ A
    exact ⟨keyring_empty_merge A, keyring_merge_empty A⟩
  · intro A
    exact ⟨locked_merge_self A, by rw [locked_merge_self A]; exact locked_merge_self A⟩
  · intro A
    exact ⟨locked_empty_merge A, locked_merge_empty A⟩

/-- Claim C10: under keyring changeset merge the network field is
first-write-wins — once `some n`, it stays `some n` whatever the second
operand's network is — while descriptor entries and the default keychain of
the second operand overwrite those of the first. -/
theorem c10_keyring_merge_network_first_write {K : Type} [DecidableEq K]
    (A B : keyring.ChangeSet K) :
    (∀ n, A.network = some n → (A.merge B).network = some n)
    ∧ (∀ k d, B.descriptors.lookup k = some d → (A.merge B).descriptors.lookup k = some d)
    ∧ (∀ k, B.default_keychain = some k → (A.merge B).default_keychain = some k) := by
  refine ⟨?_, ?_, ?_⟩
  · intro n hn
    simp only [keyring.ChangeSet.merge, oKeep, hn]
  · intro k d hd
    have hk : k ∈ B.descriptors := Finmap.lookup_isSome.mp (by rw [hd]; rfl)
    simp only [keyring.ChangeSet.merge]
    rw [Finmap.lookup_union_left hk, hd]
  · intro k hk
    simp only [keyring.ChangeSet.merge, oWrite, hk]

/-- Witness for C10 at concrete changesets: `exKrA` has network Bitcoin,
`exKrB` has network Testnet, one descriptor and a default keychain; the merge
keeps Bitcoin and takes the second operand's descriptor and default. -/
theorem c10_keyring_merge_network_first_write_witness :
    (exKrA.merge exKrB).network = some Network.bitcoin
    ∧ (exKrA.merge exKrB).descriptors.lookup 1 = some exDescX
    ∧ (exKrA.merge exKrB).default_keychain = some 1 :=
  ⟨(c10_keyring_merge_network_first_write exKrA exKrB).1 Network.bitcoin rfl,
   (c10_keyring_merge_network_first_write exKrA exKrB).2.1 1 exDescX (by decide),
   (c10_keyring_merge_network_first_write exKrA exKrB).2.2 1 rfl⟩

/-! ## Lemmas: wallet_events -/

theorem transition_eq_spec (m1 : TxMap) (e : Txid × (Transaction × ChainPosition)) :
    transition_event m1 e.1 e.2.1 e.2.2 = spec_transition m1 e := by
  obtain ⟨txid, tx2, pos2⟩ := e
  simp only [transition_event, spec_transition]
  cases h : m1.lookup txid with
  | none => cases pos2 <;> rfl
  | some p1 =>
    obtain ⟨tx1, pos1⟩ := p1
    cases pos1 with
    | confirmed a1 tr1 =>
      cases pos2 with
      | confirmed a2 tr2 =>
        by_cases ha : a1 = a2
        · simp [ha]
        · simp [ha]
      | unconfirmed f l => rfl
    | unconfirmed f l => cases pos2 <;> rfl

theorem transition_event_is_status (m1 : TxMap) (txid : Txid) (tx : Transaction)
    (pos : ChainPosition) (ev : WalletEvent)
    (h : transition_event m1 txid tx pos = some ev) : is_tx_status_event ev = true := by
  unfold transition_event at h
  cases hl : m1.lookup txid with
  | none =>
    rw [hl] at h
    cases pos <;> dsimp only at h <;> (injection h with h; subst h; rfl)
  | some p1 =>
    rw [hl] at h
    obtain ⟨tx1, pos1⟩ := p1
    cases pos1 with
    | confirmed a1 tr1 =>
      cases pos with
      | confirmed a2 tr2 =>
        dsimp only at h
        by_cases ha : a1 ≠ a2
        · rw [if_pos ha] at h
          injection h with h
          subst h
          rfl
        · rw [if_neg ha] at h
          exact absurd h (by simp)
      | unconfirmed f l =>
        dsimp only at h
        injection h with h
        subst h
        rfl
    | unconfirmed f l =>
      cases pos with
      | confirmed a2 tr2 =>
        dsimp only at h
        injection h with h
        subst h
        rfl
      | unconfirmed f2 l2 =>
        dsimp only at h
        exact absurd h (by simp)

theorem dropped_event_not_status (g : GraphSpends) (txid : Txid) (tx : Transaction) :
    is_tx_status_event (dropped_event g txid tx) = false := by
  simp only [dropped_event]
  split <;> rfl

/-- Claim C2: the confirmation-transition events emitted by `wallet_events`
are exactly, per txid of the after-snapshot and in snapshot order, the events
dictated by the chain-position transition: Unconfirmed to Confirmed gives
TxConfirmed with no old block time; Confirmed to Unconfirmed gives
TxUnconfirmed carrying the previous anchor; Confirmed to Confirmed gives
TxConfirmed carrying the previous anchor when the anchor changed and nothing
otherwise; Unconfirmed on both sides gives nothing; a new txid gives
TxConfirmed or TxUnconfirmed with no old block time by its after-position. -/
theorem c2_wallet_events_transitions (g : GraphSpends) (t1 t2 : BlockId) (m1 m2 : TxMap) :
    (wallet_events g t1 t2 m1 m2).filter is_tx_status_event
      = m2.filterMap (spec_transition m1) := by
  unfold wallet_events
  rw [List.filter_append, List.filter_append]
  have h1 : (if t1 ≠ t2 then [WalletEvent.chainTipChanged t1 t2] else []).filter
      is_tx_status_event = [] := by
    split <;> rfl
  have h2 : (m2.filterMap (fun e => transition_event m1 e.1 e.2.1 e.2.2)).filter
      is_tx_status_event
      = m2.filterMap (fun e => transition_event m1 e.1 e.2.1 e.2.2) := by
    apply List.filter_eq_self.mpr
    intro ev hev
    obtain ⟨e, he, hsome⟩ := List.mem_filterMap.mp hev
    exact transition_event_is_status m1 e.1 e.2.1 e.2.2 ev hsome
  have h3 : (m1.filterMap (fun e =>
      if (m2.lookup e.1).isSome then none
      else some (dropped_event g e.1 e.2.1))).filter is_tx_status_event = [] := by
    rw [List.filter_eq_nil_iff]
    intro ev hev
    obtain ⟨e, he, hsome⟩ := List.mem_filterMap.mp hev
    by_cases hc : (m2.lookup e.1).isSome
    · rw [if_pos hc] at hsome
      exact absurd hsome (by simp)
    · rw [if_neg hc] at hsome
      injection hsome with hev2
      subst hev2
      simp [dropped_event_not_status]
  rw [h1, h2, h3, List.nil_append, List.append_nil]
  exact List.filterMap_congr (fun e _ => transition_eq_spec m1 e)

theorem dropped_eq_spec (g : GraphSpends) (m2 : TxMap)
    (e : Txid × (Transaction × ChainPosition)) :
    (if (m2.lookup e.1).isSome then none else some (dropped_event g e.1 e.2.1))
      = spec_dropped g m2 e := by
  simp only [spec_dropped, dropped_event]
  by_cases h : (m2.lookup e.1).isSome
  · simp [h]
  · simp only [h, if_false, Bool.false_eq_true]
    by_cases hc : (direct_conflicts g e.2.1).isEmpty
    · simp [hc]
    · simp [hc]

/-- Counterexample to claim C3 as stated: in `exGraph` the before-only
transaction `exTx` (txid 1) has a direct input-conflict only with txid 3,
which is not present in the (empty) after-snapshot; `wallet_events`
nevertheless emits TxReplaced, while the claim — conflicts restricted to
present transactions — dictates TxDropped. -/
theorem c3_wallet_events_present_conflict_cex :
    wallet_events exGraph exTip exTip exTxs1 [] = [WalletEvent.txReplaced 1 exTx [(0, 3)]]
    ∧ present_input_conflicts ([] : TxMap) exTx = [] := by
  constructor <;> rfl

/-- Claim C3 (amended): for every txid present before but absent after,
`wallet_events` emits TxReplaced with its direct input-conflicts computed
against the wallet's whole tx graph (not only the present transactions) when
that conflict list is non-empty, and TxDropped otherwise; a ChainTipChanged
event is emitted iff the tip identity differs; and the event list is ordered
chain-tip first, then confirmation transitions, then replaced/dropped. -/
theorem c3_wallet_events_shape (g : GraphSpends) (t1 t2 : BlockId) (m1 m2 : TxMap) :
    wallet_events g t1 t2 m1 m2
      = (if t1 ≠ t2 then [WalletEvent.chainTipChanged t1 t2] else [])
        ++ m2.filterMap (spec_transition m1)
        ++ m1.filterMap (spec_dropped g m2) := by
  unfold wallet_events
  rw [List.filterMap_congr (fun e _ => transition_eq_spec m1 e),
    List.filterMap_congr (fun e _ => dropped_eq_spec g m2 e)]

/-! ## Lemmas: KeyRing::add_descriptor -/

theorem scan_eq_none_iff {K : Type} [DecidableEq K] (k : K) (d : Descriptor)
    (l : List (K × Descriptor)) :
    add_descriptor_scan k d l = none ↔
      ∀ p ∈ l, ¬(p.2 = d ∧ p.1 ≠ k) ∧ ¬(p.1 = k ∧ p.2 ≠ d) := by
  induction l with
  | nil => simp [add_descriptor_scan]
  | cons p rest ih =>
    obtain ⟨k0, d0⟩ := p
    simp only [add_descriptor_scan]
    by_cases h1 : d0 = d ∧ k0 ≠ k
    · rw [if_pos h1]
      constructor
      · intro hc
        exact absurd hc (by simp)
      · intro hall
        exact absurd h1 (hall (k0, d0) (by simp)).1
    · rw [if_neg h1]
      by_cases h2 : k0 = k ∧ d0 ≠ d
      · rw [if_pos h2]
        constructor
        · intro hc
          exact absurd hc (by simp)
        · intro hall
          exact absurd h2 (hall (k0, d0) (by simp)).2
      · rw [if_neg h2, ih]
        constructor
        · intro hall p hp
          rcases List.mem_cons.mp hp with hph | hpt
          · subst hph
            exact ⟨h1, h2⟩
          · exact hall p hpt
        · intro hall p hp
          exact hall p (List.mem_cons_of_mem _ hp)

theorem scan_some_shape {K : Type} [DecidableEq K] (k : K) (d : Descriptor)
    (l : List (K × Descriptor)) (e : KeyRingError K)
    (h : add_descriptor_scan k d l = some e) :
    e = .descAlreadyExists d ∨ e = .keychainAlreadyExists k := by
  induction l with
  | nil => exact absurd h (by simp [add_descriptor_scan])
  | cons p rest ih =>
    obtain ⟨k0, d0⟩ := p
    simp only [add_descriptor_scan] at h
    by_cases h1 : d0 = d ∧ k0 ≠ k
    · rw [if_pos h1] at h
      injection h with h
      left
      rw [← h, h1.1]
    · rw [if_neg h1] at h
      by_cases h2 : k0 = k ∧ d0 ≠ d
      · rw [if_pos h2] at h
        injection h with h
        right
        rw [← h]
      · rw [if_neg h2] at h
        exact ih h

theorem scan_desc_first {K : Type} [DecidableEq K] (k : K) (d : Descriptor)
    (l : List (K × Descriptor))
    (hex : ∃ p ∈ l, p.2 = d ∧ p.1 ≠ k)
    (hno : ∀ p ∈ l, ¬(p.1 = k ∧ p.2 ≠ d)) :
    add_descriptor_scan k d l = some (.descAlreadyExists d) := by
  induction l with
  | nil => exact absurd hex (by simp)
  | cons p rest ih =>
    obtain ⟨k0, d0⟩ := p
    simp only [add_descriptor_scan]
    by_cases h1 : d0 = d ∧ k0 ≠ k
    · rw [if_pos h1, h1.1]
    · rw [if_neg h1]
      have h2 : ¬(k0 = k ∧ d0 ≠ d) := hno (k0, d0) (by simp)
      rw [if_neg h2]
      apply ih
      · rcases hex with ⟨p, hp, hcond⟩
        rcases List.mem_cons.mp hp with hph | hpt
        · subst hph
          exact absurd hcond h1
        · exact ⟨p, hpt, hcond⟩
      · intro p hp
        exact hno p (List.mem_cons_of_mem _ hp)

theorem scan_key_first {K : Type} [DecidableEq K] (k : K) (d : Descriptor)
    (l : List (K × Descriptor))
    (hex : ∃ p ∈ l, p.1 = k ∧ p.2 ≠ d)
    (hno : ∀ p ∈ l, ¬(p.2 = d ∧ p.1 ≠ k)) :
    add_descriptor_scan k d l = some (.keychainAlreadyExists k) := by
  induction l with
  | nil => exact absurd hex (by simp)
  | cons p rest ih =>
    obtain ⟨k0, d0⟩ := p
    simp only [add_descriptor_scan]
    have h1 : ¬(d0 = d ∧ k0 ≠ k) := hno (k0, d0) (by simp)
    rw [if_neg h1]
    by_cases h2 : k0 = k ∧ d0 ≠ d
    · rw [if_pos h2]
    · rw [if_neg h2]
      apply ih
      · rcases hex with ⟨p, hp, hcond⟩
        rcases List.mem_cons.mp hp with hph | hpt
        · subst hph
          exact absurd hcond h2
        · exact ⟨p, hpt, hcond⟩
      · intro p hp
        exact hno p (List.mem_cons_of_mem _ hp)

theorem mem_sorted_entries {K : Type} [LinearOrder K] (m : FMap K Descriptor)
    (p : K × Descriptor) :
    p ∈ sorted_entries m ↔ m.lookup p.1 = some p.2 := by
  obtain ⟨k, d⟩ := p
  simp only [sorted_entries, List.mem_filterMap]
  constructor
  · rintro ⟨k2, hk2, hmap⟩
    rcases hm : m.lookup k2 with _ | d2 <;> rw [hm] at hmap
    · simp at hmap
    · simp only [Option.map_some', Option.some.injEq, Prod.mk.injEq] at hmap
      obtain ⟨hk, hd⟩ := hmap
      subst hk
      subst hd
      exact hm
  · intro hl
    refine ⟨k, ?_, by rw [hl]; rfl⟩
    rw [Finset.mem_sort]
    exact Finmap.mem_keys.mpr (Finmap.lookup_isSome.mp (by rw [hl]; rfl))

theorem desc_bound_iff_sorted {K : Type} [LinearOrder K] (kr : KeyRing K) (k : K)
    (d : Descriptor) :
    desc_bound kr k d ↔ ∃ p ∈ sorted_entries kr.descriptors, p.2 = d ∧ p.1 ≠ k := by
  constructor
  · rintro ⟨k2, _, hne, hl⟩
    exact ⟨(k2, d), (mem_sorted_entries _ _).mpr hl, rfl, hne⟩
  · rintro ⟨⟨k2, d2⟩, hp, hd, hne⟩
    subst hd
    exact ⟨k2, Finmap.mem_keys.mpr
      (Finmap.lookup_isSome.mp (by rw [(mem_sorted_entries _ _).mp hp]; rfl)),
      hne, (mem_sorted_entries _ _).mp hp⟩

theorem keychain_bound_iff_sorted {K : Type} [LinearOrder K] (kr : KeyRing K) (k : K)
    (d : Descriptor) :
    keychain_bound kr k d ↔ ∃ p ∈ sorted_entries kr.descriptors, p.1 = k ∧ p.2 ≠ d := by
  constructor
  · rintro ⟨hne, hnes⟩
    rcases hl : kr.descriptors.lookup k with _ | d2
    · exact absurd hl hne
    · refine ⟨(k, d2), (mem_sorted_entries _ _).mpr hl, rfl, ?_⟩
      intro hd
      subst hd
      exact hnes hl
  · rintro ⟨⟨k2, d2⟩, hp, hk, hd⟩
    subst hk
    have hl := (mem_sorted_entries _ _).mp hp
    exact ⟨by rw [hl]; simp, by rw [hl]; simp [hd]⟩

theorem fmap_keys_insert {α β : Type} [DecidableEq α] (m : FMap α β) (a : α) (b : β) :
    (m.insert a b).keys = insert a m.keys := by
  apply Finset.ext
  intro x
  simp [Finmap.mem_keys, Finmap.mem_insert]

theorem sorted_entries_exKeyRing :
    sorted_entries exKeyRing.descriptors = [(1, exDescX), (2, exDescY)] := by
  have hkeys : exKeyRing.descriptors.keys = insert 1 ({2} : Finset Nat) := by
    show ((Finmap.singleton 1 exDescX).insert 2 exDescY).keys = insert 1 {2}
    rw [fmap_keys_insert, Finmap.keys_singleton]
    decide
  have h1 : ∀ b ∈ ({2} : Finset Nat), 1 ≤ b := by decide
  have h2 : (1 : Nat) ∉ ({2} : Finset Nat) := by decide
  have hsort : Finset.sort (fun a b => a ≤ b) (insert 1 ({2} : Finset Nat))
      = 1 :: Finset.sort (fun a b => a ≤ b) {2} :=
    Finset.sort_insert (fun a b => a ≤ b) h1 h2
  unfold sorted_entries
  rw [hkeys, hsort, Finset.sort_singleton]
  decide

/-- Counterexample to claim C5 as stated: in `exKeyRing` the descriptor
`exDescY` is already bound to keychain 2, which differs from the added
keychain 1, so the claim dictates `DescAlreadyExists`; but keychain 1 is also
bound to a different descriptor, its entry comes first in keychain order, and
`add_descriptor` returns `KeychainAlreadyExists` instead. -/
theorem c5_add_descriptor_error_priority_cex :
    exKeyRing.descriptors.lookup 2 = some exDescY ∧ (2 : Nat) ≠ 1
    ∧ exKeyRing.add_descriptor 1 exDescY
        = .error (.keychainAlreadyExists 1)
    ∧ exKeyRing.add_descriptor 1 exDescY
        ≠ .error (.descAlreadyExists exDescY) := by
  have h3 : exKeyRing.add_descriptor 1 exDescY
      = .error (.keychainAlreadyExists 1) := by
    unfold KeyRing.add_descriptor
    rw [if_neg (by decide), sorted_entries_exKeyRing]
    rfl
  refine ⟨by decide, by decide, h3, ?_⟩
  intro h
  rw [h3] at h
  exact absurd (Except.error.inj h) (by decide)

/-- Claim C5 (amended): for every keyring and valid descriptor,
`add_descriptor` fails with `DescAlreadyExists` when the descriptor is bound
to a different keychain id and the keychain id is not bound to a different
descriptor; fails with `KeychainAlreadyExists` in the symmetric case; when
both conflicts hold it fails with whichever error the first conflicting entry
in keychain order triggers (one of the two); and otherwise — including
re-adding an identical pair — inserts the pair and returns only the
incremental ChangeSet containing just that pair. -/
theorem c5_add_descriptor_binding {K : Type} [LinearOrder K] (kr : KeyRing K)
    (keychain : K) (descriptor : Descriptor)
    (hv : check_wallet_descriptor descriptor = true) :
    (desc_bound kr keychain descriptor ∧ ¬keychain_bound kr keychain descriptor →
      kr.add_descriptor keychain descriptor = .error (.descAlreadyExists descriptor))
    ∧ (keychain_bound kr keychain descriptor ∧ ¬desc_bound kr keychain descriptor →
      kr.add_descriptor keychain descriptor = .error (.keychainAlreadyExists keychain))
    ∧ (desc_bound kr keychain descriptor ∧ keychain_bound kr keychain descriptor →
      kr.add_descriptor keychain descriptor = .error (.descAlreadyExists descriptor)
      ∨ kr.add_descriptor keychain descriptor = .error (.keychainAlreadyExists keychain))
    ∧ (¬desc_bound kr keychain descriptor ∧ ¬keychain_bound kr keychain descriptor →
      kr.add_descriptor keychain descriptor
        = .ok ({ kr with descriptors := kr.descriptors.insert keychain descriptor },
               { network := none, descriptors := Finmap.singleton keychain descriptor,
                 default_keychain := none })) := by
  have hvf : ¬(check_wallet_descriptor descriptor = false) := by simp [hv]
  refine ⟨?_, ?_, ?_, ?_⟩
  · rintro ⟨hd, hk⟩
    have hex := (desc_bound_iff_sorted kr keychain descriptor).mp hd
    have hno : ∀ p ∈ sorted_entries kr.descriptors, ¬(p.1 = keychain ∧ p.2 ≠ descriptor) := by
      intro p hp hc
      exact hk ((keychain_bound_iff_sorted kr keychain descriptor).mpr ⟨p, hp, hc⟩)
    unfold KeyRing.add_descriptor
    rw [if_neg hvf, scan_desc_first keychain descriptor _ hex hno]
  · rintro ⟨hk, hd⟩
    have hex := (keychain_bound_iff_sorted kr keychain descriptor).mp hk
    have hno : ∀ p ∈ sorted_entries kr.descriptors, ¬(p.2 = descriptor ∧ p.1 ≠ keychain) := by
      intro p hp hc
      exact hd ((desc_bound_iff_sorted kr keychain descriptor).mpr ⟨p, hp, hc⟩)
    unfold KeyRing.add_descriptor
    rw [if_neg hvf, scan_key_first keychain descriptor _ hex hno]
  · rintro ⟨hd, hk⟩
    unfold KeyRing.add_descriptor
    rw [if_neg hvf]
    cases hscan : add_descriptor_scan keychain descriptor (sorted_entries kr.descriptors) with
    | none =>
      have hall := (scan_eq_none_iff keychain descriptor _).mp hscan
      rcases (desc_bound_iff_sorted kr keychain descriptor).mp hd with ⟨p, hp, hc⟩
      exact absurd hc (hall p hp).1
    | some e =>
      rcases scan_some_shape keychain descriptor _ e hscan with he | he <;> subst he
      · exact Or.inl rfl
      · exact Or.inr rfl
  · rintro ⟨hd, hk⟩
    have hall : ∀ p ∈ sorted_entries kr.descriptors,
        ¬(p.2 = descriptor ∧ p.1 ≠ keychain) ∧ ¬(p.1 = keychain ∧ p.2 ≠ descriptor) := by
      intro p hp
      constructor
      · intro hc
        exact hd ((desc_bound_iff_sorted kr keychain descriptor).mpr ⟨p, hp, hc⟩)
      · intro hc
        exact hk ((keychain_bound_iff_sorted kr keychain descriptor).mpr ⟨p, hp, hc⟩)
    unfold KeyRing.add_descriptor
    rw [if_neg hvf, (scan_eq_none_iff keychain descriptor _).mpr hall]

/-- Witness for the amended C5 at a concrete keyring: re-adding the identical
pair (1, `exDescX`) to `exKeyRing1` succeeds and returns just that pair as the
incremental changeset. -/
theorem c5_add_descriptor_binding_witness :
    check_wallet_descriptor exDescX = true
    ∧ ¬desc_bound exKeyRing1 1 exDescX
    ∧ ¬keychain_bound exKeyRing1 1 exDescX
    ∧ exKeyRing1.add_descriptor 1 exDescX
        = .ok ({ exKeyRing1 with descriptors := exKeyRing1.descriptors.insert 1 exDescX },
               { network := none, descriptors := Finmap.singleton 1 exDescX,
                 default_keychain := none }) := by
  have hd : ¬desc_bound exKeyRing1 1 exDescX := by decide
  have hk : ¬keychain_bound exKeyRing1 1 exDescX := by decide
  exact ⟨rfl, hd, hk, (c5_add_descriptor_binding exKeyRing1 1 exDescX rfl).2.2.2 ⟨hd, hk⟩⟩

/-! ## Lemmas: KeyRing::from_changeset -/

theorem check_descs_loop_err {K : Type} [DecidableEq K] (n : Network)
    (m : FMap K Descriptor)
    (l : List (K × Option (Network → Except Unit Descriptor))) (e : KeyRingError K)
    (h : check_descs_loop n m l = some e) : is_load_error e := by
  induction l with
  | nil => exact absurd h (by simp [check_descs_loop])
  | cons p rest ih =>
    obtain ⟨keychain, check_desc⟩ := p
    unfold check_descs_loop at h
    cases hl : m.lookup keychain with
    | none =>
      rw [hl] at h
      dsimp only at h
      injection h with h
      subst h
      trivial
    | some loaded_desc =>
      rw [hl] at h
      cases check_desc with
      | none =>
        dsimp only at h
        exact ih h
      | some make_desc =>
        dsimp only at h
        cases hm : make_desc n with
        | error u =>
          rw [hm] at h
          dsimp only at h
          injection h with h
          subst h
          trivial
        | ok exp_desc =>
          rw [hm] at h
          dsimp only at h
          by_cases hid : exp_desc.descriptor_id ≠ loaded_desc.descriptor_id
          · rw [if_pos hid] at h
            injection h with h
            subst h
            trivial
          · rw [if_neg hid] at h
            exact ih h

theorem from_changeset_checked_props {K : Type} [DecidableEq K]
    (cs : keyring.ChangeSet K) (n : Network)
    (l : List (K × Option (Network → Except Unit Descriptor))) :
    (KeyRing.from_changeset_checked cs n l ≠ .ok none)
    ∧ (∀ kr, KeyRing.from_changeset_checked cs n l = .ok (some kr) →
        kr.network = n ∧ kr.descriptors = cs.descriptors)
    ∧ (∀ e, KeyRing.from_changeset_checked cs n l = .error e → is_load_error e) := by
  unfold KeyRing.from_changeset_checked
  split
  · cases hcl : check_descs_loop n cs.descriptors l with
    | some e =>
      refine ⟨by simp, ?_, ?_⟩
      · intro kr hkr
        exact absurd hkr (by simp)
      · intro e2 he
        injection he with heq
        rw [← heq]
        exact check_descs_loop_err n cs.descriptors l e hcl
    | none =>
      refine ⟨by simp, ?_, ?_⟩
      · intro kr hkr
        injection hkr with hkr
        injection hkr with hkr
        subst hkr
        exact ⟨rfl, rfl⟩
      · intro e he
        exact absurd he (by simp)
  · refine ⟨by simp, ?_, ?_⟩
    · intro kr hkr
      exact absurd hkr (by simp)
    · intro e he
      injection he with he
      subst he
      trivial

/-- Claim C6: `KeyRing::from_changeset` returns `Ok(None)` iff the changeset
is entirely empty; for a non-empty changeset it either returns one of the
typed load errors (missing network, network mismatch, invalid descriptor,
missing requested keychain, descriptor-id mismatch) or a keyring whose
network and descriptors equal those of the changeset — loading never
partially succeeds. -/
theorem c6_from_changeset_load {K : Type} [DecidableEq K]
    (cs : keyring.ChangeSet K) (check_network : Option Network)
    (check_descs : List (K × Option (Network → Except Unit Descriptor))) :
    (KeyRing.from_changeset cs check_network check_descs = .ok none
      ↔ cs.is_empty = true)
    ∧ (∀ kr, KeyRing.from_changeset cs check_network check_descs = .ok (some kr) →
        cs.network = some kr.network ∧ kr.descriptors = cs.descriptors)
    ∧ (∀ e, KeyRing.from_changeset cs check_network check_descs = .error e →
        is_load_error e) := by
  by_cases hemp : cs.is_empty = true
  · constructor
    · simp [KeyRing.from_changeset, hemp]
    constructor
    · intro kr hkr
      simp [KeyRing.from_changeset, hemp] at hkr
    · intro e he
      simp [KeyRing.from_changeset, hemp] at he
  · have hrest : KeyRing.from_changeset cs check_network check_descs
        = (match cs.network with
          | none => .error .missingNetwork
          | some loaded_network =>
            match check_network with
            | some expected_network =>
              if loaded_network ≠ expected_network then
                .error (.networkMismatch loaded_network expected_network)
              else KeyRing.from_changeset_checked cs loaded_network check_descs
            | none => KeyRing.from_changeset_checked cs loaded_network check_descs) := by
      unfold KeyRing.from_changeset
      rw [if_neg hemp]
    rw [hrest]
    cases hn : cs.network with
    | none =>
      refine ⟨?_, ?_, ?_⟩
      · constructor
        · intro hc
          exact absurd hc (by simp)
        · intro hc
          exact absurd hc hemp
      · intro kr hkr
        exact absurd hkr (by simp)
      · intro e he
        injection he with he
        subst he
        trivial
    | some ln =>
      dsimp only
      have hchecked : ∀ (res : Except (KeyRingError K) (Option (KeyRing K))),
          res = KeyRing.from_changeset_checked cs ln check_descs →
          (res = .ok none ↔ cs.is_empty = true)
          ∧ (∀ kr, res = .ok (some kr) →
              some ln = some kr.network ∧ kr.descriptors = cs.descriptors)
          ∧ (∀ e, res = .error e → is_load_error e) := by
        intro res hres
        obtain ⟨hne, hok, herr⟩ := from_changeset_checked_props cs ln check_descs
        refine ⟨?_, ?_, ?_⟩
        · constructor
          · intro hc
            rw [hres] at hc
            exact absurd hc hne
          · intro hc
            exact absurd hc hemp
        · intro kr hkr
          rw [hres] at hkr
          obtain ⟨hnet, hdesc⟩ := hok kr hkr
          rw [hnet]
          exact ⟨rfl, hdesc⟩
        · intro e he
          rw [hres] at he
          exact herr e he
      cases check_network with
      | none =>
        dsimp only
        exact hchecked _ rfl
      | some en =>
        dsimp only
        by_cases hne : ln ≠ en
        · rw [if_pos hne]
          refine ⟨?_, ?_, ?_⟩
          · constructor
            · intro hc
              exact absurd hc (by simp)
            · intro hc
              exact absurd hc hemp
          · intro kr hkr
            exact absurd hkr (by simp)
          · intro e he
            injection he with he
            subst he
            trivial
        · rw [if_neg hne]
          exact hchecked _ rfl

/-- Witness for C6: the empty changeset loads as `Ok(None)`, and the concrete
non-empty `exKeyringCS` loads as a keyring carrying exactly the changeset's
network and descriptors. -/
theorem c6_from_changeset_load_witness :
    KeyRing.from_changeset (keyring.ChangeSet.empty Nat) none
        ([] : List (Nat × Option (Network → Except Unit Descriptor))) = .ok none
    ∧ exKeyringCS.is_empty = false
    ∧ exKeyringCS.network
        = some (KeyRing.mk Network.regtest (Finmap.singleton 1 exDescX)).network
    ∧ (KeyRing.mk Network.regtest (Finmap.singleton 1 exDescX)).descriptors
        = exKeyringCS.descriptors := by
  have h1 := (c6_from_changeset_load (keyring.ChangeSet.empty Nat) none
    ([] : List (Nat × Option (Network → Except Unit Descriptor)))).1.mpr (by decide)
  have h4 : KeyRing.from_changeset exKeyringCS none
      ([] : List (Nat × Option (Network → Except Unit Descriptor)))
      = .ok (some (KeyRing.mk Network.regtest (Finmap.singleton 1 exDescX))) := by rfl
  have h5 := (c6_from_changeset_load exKeyringCS none
    ([] : List (Nat × Option (Network → Except Unit Descriptor)))).2.1 _ h4
  exact ⟨h1, by decide, h5.1, h5.2⟩

/-! ## Lemmas: canonicalization -/

theorem conflicts_with_self (t : CandTx) : conflicts_with t t = false := by
  simp [conflicts_with]

theorem any_contains_comm (a b : List OutPoint) :
    a.any (fun op => b.contains op) = b.any (fun op => a.contains op) := by
  rw [Bool.eq_iff_iff]
  simp only [List.any_eq_true, List.elem_iff]
  exact ⟨fun ⟨op, h1, h2⟩ => ⟨op, h2, h1⟩, fun ⟨op, h1, h2⟩ => ⟨op, h2, h1⟩⟩

theorem conflicts_with_symm (t u : CandTx) :
    conflicts_with t u = conflicts_with u t := by
  unfold conflicts_with
  rw [Bool.eq_iff_iff]
  simp only [Bool.and_eq_true, decide_eq_true_eq, List.any_eq_true, List.elem_iff, ne_eq]
  constructor
  · rintro ⟨hne, op, h1, h2⟩
    exact ⟨fun hc => hne hc.symm, op, h2, h1⟩
  · rintro ⟨hne, op, h1, h2⟩
    exact ⟨fun hc => hne hc.symm, op, h2, h1⟩

theorem canonical_fold_pairwise (l acc : List CandTx)
    (hacc : ∀ a ∈ acc, ∀ b ∈ acc, conflicts_with a b = false) :
    ∀ a ∈ l.foldl
      (fun acc t => if acc.any (fun u => conflicts_with u t) then acc else acc ++ [t]) acc,
    ∀ b ∈ l.foldl
      (fun acc t => if acc.any (fun u => conflicts_with u t) then acc else acc ++ [t]) acc,
    conflicts_with a b = false := by
  induction l generalizing acc with
  | nil => simpa using hacc
  | cons t rest ih =>
    simp only [List.foldl_cons]
    apply ih
    by_cases h : acc.any (fun u => conflicts_with u t) = true
    · rw [if_pos h]
      exact hacc
    · rw [if_neg h]
      have hnot : ∀ u ∈ acc, conflicts_with u t = false := by
        rw [Bool.not_eq_true, List.any_eq_false] at h
        intro u hu
        exact Bool.eq_false_iff.mpr (h u hu)
      intro a ha b hb
      rcases List.mem_append.mp ha with ha2 | ha2
      · rcases List.mem_append.mp hb with hb2 | hb2
        · exact hacc a ha2 b hb2
        · have hbt : b = t := by simpa using hb2
          subst hbt
          exact hnot a ha2
      · have hat : a = t := by simpa using ha2
        rcases List.mem_append.mp hb with hb2 | hb2
        · rw [hat, conflicts_with_symm]
          exact hnot b hb2
        · have hbt : b = t := by simpa using hb2
          rw [hat, hbt]
          exact conflicts_with_self t

theorem canonical_fold_subset (l acc : List CandTx) :
    ∀ t ∈ l.foldl
      (fun acc t => if acc.any (fun u => conflicts_with u t) then acc else acc ++ [t]) acc,
    t ∈ acc ∨ t ∈ l := by
  induction l generalizing acc with
  | nil => intro t ht; exact Or.inl (by simpa using ht)
  | cons x rest ih =>
    intro t ht
    simp only [List.foldl_cons] at ht
    rcases ih _ t ht with hc | hc
    · by_cases h : acc.any (fun u => conflicts_with u x) = true
      · rw [if_pos h] at hc
        exact Or.inl hc
      · rw [if_neg h] at hc
        rcases List.mem_append.mp hc with hc2 | hc2
        · exact Or.inl hc2
        · have htx : t = x := by simpa using hc2
          exact Or.inr (by rw [htx]; exact List.mem_cons_self x rest)
    · exact Or.inr (List.mem_cons_of_mem x hc)

theorem mem_list_canonical_mem_txs (w : CanonWallet) (t : CandTx)
    (h : t ∈ list_canonical_txs w) : t ∈ w.txs := by
  unfold list_canonical_txs at h
  rcases canonical_fold_subset _ _ t h with hc | hc
  · exact absurd hc (by simp)
  · unfold canonical_candidates at hc
    rcases List.mem_append.mp hc with hc2 | hc2 <;>
      · rw [List.mem_insertionSort] at hc2
        exact (List.mem_filter.mp hc2).1

/-- Claim C9: among any set of transactions that mutually conflict on an
input, at most one appears in the canonical set returned by
`Wallet::transactions` — any two members of the returned set do not
input-conflict. -/
theorem c9_canonical_unique (w : CanonWallet) (t1 t2 : CandTx)
    (h1 : t1 ∈ w.transactions) (h2 : t2 ∈ w.transactions) :
    conflicts_with t1 t2 = false := by
  have hm1 : t1 ∈ list_canonical_txs w := (List.mem_filter.mp h1).1
  have hm2 : t2 ∈ list_canonical_txs w := (List.mem_filter.mp h2).1
  unfold list_canonical_txs at hm1 hm2
  exact canonical_fold_pairwise (canonical_candidates w) [] (by simp) t1 hm1 t2 hm2

/-- Witness for C9: in `exCanonWallet2` both candidates are returned by
`transactions`, and the theorem yields that they do not conflict. -/
theorem c9_canonical_unique_witness :
    exCandA ∈ exCanonWallet2.transactions ∧ exCandB ∈ exCanonWallet2.transactions
    ∧ conflicts_with exCandA exCandB = false := by
  have h1 : exCandA ∈ exCanonWallet2.transactions := by decide
  have h2 : exCandB ∈ exCanonWallet2.transactions := by decide
  exact ⟨h1, h2, c9_canonical_unique exCanonWallet2 exCandA exCandB h1 h2⟩

/-- Claim C7: `Wallet::apply_evicted_txs` records an eviction timestamp only
for txids that are canonical and unconfirmed at the time of the call: every
entry of the staged eviction list belongs to a canonical transaction, and
every wallet transaction carrying that txid is unanchored in the best chain
(not confirmed). -/
theorem c7_apply_evicted_guard (w : CanonWallet) (evicted_txs : List (Txid × Nat))
    (txid : Txid) (ts : Nat)
    (hnodup : (w.txs.map CandTx.txid).Nodup)
    (hmem : (txid, ts) ∈ apply_evicted_txs w evicted_txs) :
    (∃ t ∈ list_canonical_txs w, t.txid = txid)
    ∧ ∀ u ∈ w.txs, u.txid = txid → anchored_in_chain w.chain_blocks u = false := by
  unfold apply_evicted_txs batch_insert_relevant_evicted_at at hmem
  have hp := (List.mem_filter.mp hmem).2
  simp only [Bool.and_eq_true, List.any_eq_true] at hp
  obtain ⟨hrel, t, htmem, htxid, hanch⟩ := hp
  have htxid2 : t.txid = txid := by simpa using htxid
  have hanch2 : anchored_in_chain w.chain_blocks t = false := by
    rw [Bool.not_eq_true'] at hanch
    exact hanch
  refine ⟨⟨t, htmem, htxid2⟩, ?_⟩
  intro u hu hutxid
  have htxs : t ∈ w.txs := mem_list_canonical_mem_txs w t htmem
  have hut : u = t :=
    List.inj_on_of_nodup_map hnodup hu htxs (by rw [hutxid, htxid2])
  rw [hut]
  exact hanch2

/-- Witness for C7 at a concrete wallet: the unconfirmed canonical
transaction txid 1 is evicted, and the theorem yields that it is canonical
and unconfirmed. -/
theorem c7_apply_evicted_guard_witness :
    (exCanonWallet.txs.map CandTx.txid).Nodup
    ∧ (1, 100) ∈ apply_evicted_txs exCanonWallet [(1, 100)]
    ∧ (∃ t ∈ list_canonical_txs exCanonWallet, t.txid = 1)
    ∧ ∀ u ∈ exCanonWallet.txs, u.txid = 1 →
        anchored_in_chain exCanonWallet.chain_blocks u = false := by
  have hn : (exCanonWallet.txs.map CandTx.txid).Nodup := by decide
  have hm : ((1 : Nat), (100 : Nat)) ∈ apply_evicted_txs exCanonWallet [(1, 100)] := by
    decide
  obtain ⟨ha, hb⟩ := c7_apply_evicted_guard exCanonWallet [(1, 100)] 1 100 hn hm
  exact ⟨hn, hm, ha, hb⟩

/-! ## Lemmas: locked outpoints -/

theorem mem_load_locked (cs : locked_outpoints.ChangeSet) (op : OutPoint) :
    op ∈ load_locked_outpoints cs ↔ cs.outpoints.lookup op = some true := by
  unfold load_locked_outpoints
  rw [Multiset.mem_toFinset, Multiset.mem_map]
  constructor
  · rintro ⟨e, he, hfst⟩
    obtain ⟨hent, hsnd⟩ := Multiset.mem_filter.mp he
    obtain ⟨a, b⟩ := e
    subst hfst
    subst hsnd
    exact Option.mem_def.mp (Finmap.mem_lookup_iff.mpr hent)
  · intro hl
    have hsig : (⟨op, true⟩ : Σ _ : OutPoint, Bool) ∈ cs.outpoints.entries :=
      Finmap.mem_lookup_iff.mp (Option.mem_def.mpr hl)
    exact ⟨⟨op, true⟩, Multiset.mem_filter.mpr ⟨hsig, rfl⟩, rfl⟩

theorem load_is_locked_iff (cs : locked_outpoints.ChangeSet) (op : OutPoint) :
    (load_locked_wallet cs).is_outpoint_locked op = true
      ↔ cs.outpoints.lookup op = some true := by
  unfold LockedWallet.is_outpoint_locked load_locked_wallet
  rw [decide_eq_true_eq]
  exact mem_load_locked cs op

/-- Counterexample to claim C8 as stated: on a wallet whose in-memory set
already holds `exOutPoint0`, `lock_outpoint` is a no-op — the marker
`(outpoint, true)` is not staged. -/
theorem c8_lock_noop_cex :
    exLockedWallet.is_outpoint_locked exOutPoint0 = true
    ∧ (exLockedWallet.lock_outpoint exOutPoint0).stage.outpoints.lookup exOutPoint0 = none
    ∧ (exLockedWallet.lock_outpoint exOutPoint0).stage.outpoints.lookup exOutPoint0
        ≠ some true := by
  refine ⟨by decide, by decide, by decide⟩

/-- Claim C8 (amended): `lock_outpoint` stages the marker (outpoint, true)
when the outpoint was not already locked, and `unlock_outpoint` stages the
explicit marker (outpoint, false) when it was locked (otherwise both are
no-ops that stage nothing); a wallet reloaded from an aggregate changeset
reports an outpoint locked iff the latest merged marker for it is true; and
lock-persist-reload keeps it locked while unlock-persist-reload leaves it
unlocked. -/
theorem c8_locked_outpoints_roundtrip (w : LockedWallet)
    (cs : locked_outpoints.ChangeSet) (op : OutPoint) :
    (op ∉ w.locked_outpoints →
      (w.lock_outpoint op).stage.outpoints.lookup op = some true)
    ∧ (op ∈ w.locked_outpoints →
      (w.unlock_outpoint op).stage.outpoints.lookup op = some false)
    ∧ ((load_locked_wallet cs).is_outpoint_locked op = true
        ↔ cs.outpoints.lookup op = some true)
    ∧ (load_locked_wallet
        (cs.merge ((load_locked_wallet cs).lock_outpoint op).stage)).is_outpoint_locked op
        = true
    ∧ (load_locked_wallet
        (cs.merge ((load_locked_wallet cs).unlock_outpoint op).stage)).is_outpoint_locked op
        = false := by
  have hsing : ∀ b : Bool, op ∈ (Finmap.singleton op b : FMap OutPoint Bool) := by
    intro b
    apply Finmap.lookup_isSome.mp
    rw [Finmap.lookup_singleton_eq]
    rfl
  refine ⟨?_, ?_, load_is_locked_iff cs op, ?_, ?_⟩
  · intro hmem
    unfold LockedWallet.lock_outpoint
    rw [if_neg hmem]
    show ((Finmap.singleton op true : FMap OutPoint Bool)
      ∪ w.stage.outpoints).lookup op = some true
    rw [Finmap.lookup_union_left (hsing true), Finmap.lookup_singleton_eq]
  · intro hmem
    unfold LockedWallet.unlock_outpoint
    rw [if_pos hmem]
    show ((Finmap.singleton op false : FMap OutPoint Bool)
      ∪ w.stage.outpoints).lookup op = some false
    rw [Finmap.lookup_union_left (hsing false), Finmap.lookup_singleton_eq]
  · rw [load_is_locked_iff]
    by_cases hm : op ∈ (load_locked_wallet cs).locked_outpoints
    · unfold LockedWallet.lock_outpoint
      rw [if_pos hm]
      show ((load_locked_wallet cs).stage.outpoints ∪ cs.outpoints).lookup op = some true
      have hstage : (load_locked_wallet cs).stage.outpoints = ∅ := rfl
      rw [hstage, Finmap.empty_union]
      exact (mem_load_locked cs op).mp hm
    · unfold LockedWallet.lock_outpoint
      rw [if_neg hm]
      show (((Finmap.singleton op true : FMap OutPoint Bool)
        ∪ (load_locked_wallet cs).stage.outpoints) ∪ cs.outpoints).lookup op = some true
      have hm2 : op ∈ (Finmap.singleton op true : FMap OutPoint Bool)
          ∪ (load_locked_wallet cs).stage.outpoints :=
        Finmap.mem_union.mpr (Or.inl (hsing true))
      rw [Finmap.lookup_union_left hm2, Finmap.lookup_union_left (hsing true),
        Finmap.lookup_singleton_eq]
  · rw [Bool.eq_false_iff]
    intro hcontra
    rw [load_is_locked_iff] at hcontra
    by_cases hm : op ∈ (load_locked_wallet cs).locked_outpoints
    · unfold LockedWallet.unlock_outpoint at hcontra
      rw [if_pos hm] at hcontra
      have hm2 : op ∈ (Finmap.singleton op false : FMap OutPoint Bool)
          ∪ (load_locked_wallet cs).stage.outpoints :=
        Finmap.mem_union.mpr (Or.inl (hsing false))
      have hc2 : (((Finmap.singleton op false : FMap OutPoint Bool)
          ∪ (load_locked_wallet cs).stage.outpoints) ∪ cs.outpoints).lookup op
          = some true := hcontra
      rw [Finmap.lookup_union_left hm2, Finmap.lookup_union_left (hsing false),
        Finmap.lookup_singleton_eq] at hc2
      exact absurd hc2 (by simp)
    · unfold LockedWallet.unlock_outpoint at hcontra
      rw [if_neg hm] at hcontra
      have hc2 : (((∅ : FMap OutPoint Bool) : FMap OutPoint Bool)
          ∪ cs.outpoints).lookup op = some true := hcontra
      rw [Finmap.empty_union] at hc2
      exact hm ((mem_load_locked cs op).mpr hc2)

/-- Witness for the amended C8 at a concrete wallet and (empty) aggregate
changeset: unlocking the already-locked `exOutPoint0` stages the explicit
false marker, and the lock/unlock round trips through reload behave as
stated. -/
theorem c8_locked_outpoints_roundtrip_witness :
    exOutPoint0 ∈ exLockedWallet.locked_outpoints
    ∧ (exLockedWallet.unlock_outpoint exOutPoint0).stage.outpoints.lookup exOutPoint0
        = some false
    ∧ (load_locked_wallet
        (exLockedCS.merge
          ((load_locked_wallet exLockedCS).lock_outpoint
            exOutPoint0).stage)).is_outpoint_locked exOutPoint0 = true
    ∧ (load_locked_wallet
        (exLockedCS.merge
          ((load_locked_wallet exLockedCS).unlock_outpoint
            exOutPoint0).stage)).is_outpoint_locked exOutPoint0 = false := by
  have h := c8_locked_outpoints_roundtrip exLockedWallet exLockedCS exOutPoint0
  exact ⟨by decide, h.2.1 (by decide), h.2.2.2.1, h.2.2.2.2⟩

/-! ## Lemmas: Wallet::apply_update -/

/-- Claim C1: `Wallet::apply_update` returns an error only when the update
supplies a chain checkpoint that cannot be connected to the local chain (a
`CannotConnectError` from the chain step); in the error case the wallet —
including its staged ChangeSet — is unchanged; and on success the chain
delta, the keychain reveal delta and the transaction-graph delta are merged
into the single changeset `update_changeset` which is staged in one step, so
partial application is never observable. -/
theorem c1_apply_update_atomic (w : Wallet) (u : Update) :
    (∀ e, (w.apply_update u).2 = some e →
      (w.apply_update u).1 = w
      ∧ ∃ tip, u.chain = some tip ∧ w.chain.apply_update tip = .error e)
    ∧ ((w.apply_update u).2 = none →
      (w.apply_update u).1.stage = w.stage.merge (w.update_changeset u)) := by
  cases hu : u.chain with
  | none =>
    have heq : w.apply_update u
        = (Wallet.apply_update_rest w u walletK.ChangeSet.empty, none) := by
      simp only [Wallet.apply_update, hu]
    constructor
    · intro e he
      rw [heq] at he
      exact absurd he (by simp)
    · intro _
      rw [heq]
      show (Wallet.apply_update_rest w u walletK.ChangeSet.empty).stage
        = w.stage.merge (w.update_changeset u)
      unfold Wallet.apply_update_rest Wallet.update_changeset
      rw [hu]
  | some tip =>
    cases hc : w.chain.apply_update tip with
    | error e0 =>
      have heq : w.apply_update u = (w, some e0) := by
        simp only [Wallet.apply_update, hu, hc]
      constructor
      · intro e he
        rw [heq] at he
        injection he with he
        subst he
        exact ⟨by rw [heq], tip, rfl, hc⟩
      · intro hn
        rw [heq] at hn
        exact absurd hn (by simp)
    | ok cr =>
      have heq : w.apply_update u
          = (Wallet.apply_update_rest { w with chain := cr.1 } u
              (walletK.ChangeSet.empty.merge (walletK.ChangeSet.ofLocalChain cr.2)),
             none) := by
        simp only [Wallet.apply_update, hu, hc]
      constructor
      · intro e he
        rw [heq] at he
        exact absurd he (by simp)
      · intro _
        rw [heq]
        unfold Wallet.apply_update_rest Wallet.update_changeset
        rw [hu]
        dsimp only
        rw [hc]

/-- Witness for C1 at a concrete wallet: an update without a checkpoint
succeeds and stages exactly the single combined changeset; an update whose
checkpoint cannot connect returns the `CannotConnectError` and leaves the
wallet unchanged. -/
theorem c1_apply_update_atomic_witness :
    (exWallet.apply_update exUpdateNoChain).2 = none
    ∧ (exWallet.apply_update exUpdateNoChain).1.stage
        = exWallet.stage.merge (exWallet.update_changeset exUpdateNoChain)
    ∧ (exWallet.apply_update exUpdateBadChain).2 = some { try_include_height := 0 }
    ∧ (exWallet.apply_update exUpdateBadChain).1 = exWallet
    ∧ exUpdateBadChain.chain = some { blocks := [{ height := 5, hash := 99 }] }
    ∧ exChain.apply_update { blocks := [{ height := 5, hash := 99 }] }
        = .error { try_include_height := 0 } := by
  have h1 := c1_apply_update_atomic exWallet exUpdateNoChain
  have h2 := c1_apply_update_atomic exWallet exUpdateBadChain
  have hn : (exWallet.apply_update exUpdateNoChain).2 = none := rfl
  have hb : (exWallet.apply_update exUpdateBadChain).2
      = some { try_include_height := 0 } := rfl
  exact ⟨hn, h1.2 hn, hb, (h2.1 _ hb).1, rfl, rfl⟩

end Bdk
